import Mathlib

/-!
Shallow embedding of `remove_backgrounds.py`, a batch background-removal
script: it creates an output directory, then for each of three hard-coded
icon filenames checks whether the input file exists, reads its bytes,
passes them to an external background-removal capability, and writes the
returned bytes to the output path.  The filesystem is modelled as an
association list from path strings to entries (files with byte contents,
or directories); the external capability is a parameter of type
`Bytes → Except String Bytes`; console output is modelled as a list of
log lines, and the individual processing steps additionally leave an
event trace used to state ordering properties.
-/

set_option autoImplicit false

namespace KeaBatch

/-- Raw image bytes: an opaque byte sequence (`ImageBytes` in the spec). -/
abbrev Bytes := List Nat

/-- Filesystem paths, as plain strings. -/
abbrev Path := String

/-- A filesystem entry: a regular file with contents, or a directory. -/
inductive Entry
  | file (data : Bytes)
  | dir
deriving DecidableEq, Repr

/-- The filesystem: an association list from paths to entries.
The first binding for a path wins, so writing is consing at the front. -/
abbrev FS := List (Path × Entry)

/-- Look a path up in the filesystem. -/
def lookupFS : FS → Path → Option Entry
  | [], _ => none
  | (q, e) :: rest, p => if p = q then some e else lookupFS rest p

/-- `os.path.exists(p)`: the path is bound to any entry. -/
def pathExists (fs : FS) (p : Path) : Bool := (lookupFS fs p).isSome

/-- `os.path.isdir(p)`. -/
def isdir (fs : FS) (p : Path) : Bool :=
  match lookupFS fs p with
  | some Entry.dir => true
  | _ => false

/-- `open(p, 'rb').read()`: the file's bytes, or the `OSError` Python raises
when the path is a directory or is missing. -/
def readFile (fs : FS) (p : Path) : Except String Bytes :=
  match lookupFS fs p with
  | some (Entry.file d) => Except.ok d
  | some Entry.dir => Except.error "IsADirectoryError"
  | none => Except.error "FileNotFoundError"

/-- The filesystem after a successful write: `p` bound to a file with
contents `d`, shadowing (overwriting) any previous binding. -/
def setFile (fs : FS) (p : Path) (d : Bytes) : FS := (p, Entry.file d) :: fs

/-- `open(p, 'wb').write(d)`: raises `IsADirectoryError` when `p` is an
existing directory, otherwise creates or truncates the file and writes `d`.
(The other `open` failure, a missing or non-directory parent, cannot arise
at this script's write sites: the parent there is always the output
directory, which a successful `os.makedirs` has just ensured is a
directory.) -/
def writeFile (fs : FS) (p : Path) (d : Bytes) : Except String FS :=
  match lookupFS fs p with
  | some Entry.dir => Except.error "IsADirectoryError"
  | _ => Except.ok (setFile fs p d)

/-- Split a character list at every `'/'`. -/
def splitChars : List Char → List (List Char)
  | [] => [[]]
  | c :: rest =>
    if c = '/' then [] :: splitChars rest
    else
      match splitChars rest with
      | [] => [[c]]
      | h :: t => (c :: h) :: t

/-- Split a path into its `'/'`-separated components. -/
def splitPath (p : Path) : List String := (splitChars p.data).map String.mk

/-- Join path components with `'/'` separators. -/
def joinParts : List String → String
  | [] => ""
  | [x] => x
  | x :: y :: rest => x ++ "/" ++ joinParts (y :: rest)

/-- The leaf (basename) of a path: its last `'/'`-separated component. -/
def leafName (p : Path) : String := (splitPath p).getLastD ""

/-- `os.path.join(d, f)` for the relative, slash-free arguments this
script uses. -/
def pathJoin (d f : Path) : Path := d ++ "/" ++ f

/-- `os.mkdir(name)`, where `rparts` is the reversed component list of
`name`: fails if `name` exists, or if its parent is missing or a file.
A single-component name is created under the working directory. -/
def mkdirR (fs : FS) (rparts : List String) : Except String FS :=
  let name := joinParts rparts.reverse
  match lookupFS fs name with
  | some _ => Except.error "FileExistsError"
  | none =>
    match rparts with
    | [] => Except.error "FileNotFoundError"
    | [_] => Except.ok ((name, Entry.dir) :: fs)
    | _ :: hp =>
      match lookupFS fs (joinParts hp.reverse) with
      | some Entry.dir => Except.ok ((name, Entry.dir) :: fs)
      | some (Entry.file _) => Except.error "NotADirectoryError"
      | none => Except.error "FileNotFoundError"

/-- `os.makedirs(name, exist_ok=True)` on the reversed component list of
`name`: first ensure the parent exists (recursively, suppressing a
concurrent-creation `FileExistsError` as CPython does), then `mkdir` the
leaf, treating "already exists as a directory" as silent success.
Errors are paired with the filesystem state reached so far. -/
def makedirsR (fs : FS) : List String → FS × Option String
  | [] => (fs, none)
  | leaf :: hp =>
    let name := joinParts (leaf :: hp).reverse
    let st :=
      if hp ≠ [] ∧ pathExists fs (joinParts hp.reverse) = false then
        let r := makedirsR fs hp
        if r.2 = some "FileExistsError" then (r.1, none) else r
      else (fs, none)
    match st with
    | (fs1, some e) => (fs1, some e)
    | (fs1, none) =>
      match mkdirR fs1 (leaf :: hp) with
      | Except.ok fs2 => (fs2, none)
      | Except.error e => if isdir fs1 name then (fs1, none) else (fs1, some e)

/-- `os.makedirs(p, exist_ok=True)`. -/
def makedirs (fs : FS) (p : Path) : FS × Option String :=
  makedirsR fs (splitPath p).reverse

/-- `input_dir = "public"` (source line 29). -/
def input_dir : Path := "public"

/-- `output_dir = "public/transparent"` (source line 30). -/
def output_dir : Path := "public/transparent"

/-- The hard-coded icon list (source lines 36–40). -/
def icons : List String := ["set1_silent.png", "set1_listening.png", "set1_speaking.png"]

/-- `os.path.join(input_dir, icon)` (source line 50). -/
def inPath (icon : String) : Path := pathJoin input_dir icon

/-- `os.path.join(output_dir, icon)` (source line 51). -/
def outPath (icon : String) : Path := pathJoin output_dir icon

/-- One observable step of a run: the existence check of an input path,
reading it, invoking the external remover on its data, writing an output
path, or emitting the not-found notice. -/
inductive Event
  | check (p : Path)
  | readF (p : Path)
  | callRemove (p : Path)
  | writeF (p : Path)
  | notice (p : Path)
deriving DecidableEq, Repr

/-- The path an event is about. -/
def evPath : Event → Path
  | Event.check p => p
  | Event.readF p => p
  | Event.callRemove p => p
  | Event.writeF p => p
  | Event.notice p => p

/-- The `print(f"Processing: {input_path}")` line. -/
def procLine (p : Path) : String := "Processing: " ++ p

/-- The `print(f"✅ Saved: {output_path}")` line. -/
def savedLine (p : Path) : String := "✅ Saved: " ++ p

/-- The `print(f"⚠️  File not found: {input_path}")` line. -/
def notFoundLine (p : Path) : String := "⚠️  File not found: " ++ p

/-- `remove_background(input_path, output_path)`: print, read the input,
call the external capability `rem`, write its result.  A failure of the
read, of `rem`, or of the output write propagates, carrying the log lines
and events emitted before the failure. -/
def remove_background (rem : Bytes → Except String Bytes) (fs : FS)
    (input_path output_path : Path) :
    Except (List String × List Event × String) (FS × List String × List Event) :=
  match readFile fs input_path with
  | Except.error e => Except.error ([procLine input_path], [Event.readF input_path], e)
  | Except.ok input_data =>
    match rem input_data with
    | Except.error e =>
        Except.error ([procLine input_path],
          [Event.readF input_path, Event.callRemove input_path], e)
    | Except.ok output_data =>
      match writeFile fs output_path output_data with
      | Except.error e =>
          Except.error ([procLine input_path],
            [Event.readF input_path, Event.callRemove input_path], e)
      | Except.ok fs2 =>
          Except.ok (fs2,
            [procLine input_path, savedLine output_path],
            [Event.readF input_path, Event.callRemove input_path,
              Event.writeF output_path])

/-- The outcome of a run: final filesystem, log and trace, either after
normal completion or at the uncaught error that aborted the run. -/
inductive RunResult
  | ok (fs : FS) (log : List String) (tr : List Event)
  | err (fs : FS) (log : List String) (tr : List Event) (msg : String)
deriving DecidableEq, Repr

/-- Final filesystem of a run outcome. -/
def rrFS : RunResult → FS
  | RunResult.ok fs _ _ => fs
  | RunResult.err fs _ _ _ => fs

/-- Final log of a run outcome. -/
def rrLog : RunResult → List String
  | RunResult.ok _ l _ => l
  | RunResult.err _ l _ _ => l

/-- Final event trace of a run outcome. -/
def rrTrace : RunResult → List Event
  | RunResult.ok _ _ t => t
  | RunResult.err _ _ t _ => t

/-- The `for icon in icons:` loop of `main` (source lines 49–56),
accumulating filesystem, log and trace. -/
def processIcons (rem : Bytes → Except String Bytes) :
    FS → List String → List Event → List String → RunResult
  | fs, log, tr, [] => RunResult.ok fs log tr
  | fs, log, tr, icon :: rest =>
    let input_path := inPath icon
    let output_path := outPath icon
    let tr1 := tr ++ [Event.check input_path]
    if pathExists fs input_path then
      match remove_background rem fs input_path output_path with
      | Except.ok (fs2, l, evs) => processIcons rem fs2 (log ++ l) (tr1 ++ evs) rest
      | Except.error (l, evs, e) => RunResult.err fs (log ++ l) (tr1 ++ evs) e
    else
      processIcons rem fs (log ++ [notFoundLine input_path])
        (tr1 ++ [Event.notice input_path]) rest

/-- The `"=" * 50` separator line. -/
def sepLine : String := String.mk (List.replicate 50 (Char.ofNat 61))

/-- The banner printed before the loop (source lines 42–46). -/
def banner : List String :=
  ["🦜 Kea Icon Background Removal", sepLine,
   "Input:  " ++ input_dir ++ "/", "Output: " ++ output_dir ++ "/", sepLine]

/-- The completion lines printed after the loop (source lines 58–60). -/
def footer : List String :=
  [sepLine, "✨ Background removal complete!",
   "Transparent icons saved to: " ++ output_dir ++ "/"]

/-- The part of `main` after the `os.makedirs` call: banner, loop, footer. -/
def runFrom (rem : Bytes → Except String Bytes) (fs1 : FS) : RunResult :=
  match processIcons rem fs1 banner [] icons with
  | RunResult.ok fs2 log tr => RunResult.ok fs2 (log ++ footer) tr
  | RunResult.err fs2 log tr e => RunResult.err fs2 log tr e

/-- `main()` (source lines 27–60): create the output directory, then run
the batch.  An uncaught `os.makedirs` error aborts before any printing. -/
def main (rem : Bytes → Except String Bytes) (fs : FS) : RunResult :=
  match makedirs fs output_dir with
  | (fs1, some e) => RunResult.err fs1 [] [] e
  | (fs1, none) => runFrom rem fs1

/-- A sample deterministic external capability that always succeeds. -/
def remCons : Bytes → Except String Bytes := fun bs => Except.ok (0 :: bs)

/-- A sample external capability that fails on the byte sequence `[3]`. -/
def remFail3 : Bytes → Except String Bytes :=
  fun bs => if bs = [3] then Except.error "boom" else Except.ok (0 :: bs)

/-- A sample filesystem holding only the first icon. -/
def fsSmall : FS := [(inPath "set1_silent.png", Entry.file [1])]

/-- A sample filesystem holding the first and third icons, second missing. -/
def fsTwo : FS :=
  [(inPath "set1_silent.png", Entry.file [1]), (inPath "set1_speaking.png", Entry.file [3])]

/-- A sample filesystem where the first icon's input path is a directory. -/
def fsDirClash : FS := [(inPath "set1_silent.png", Entry.dir)]

/-- A sample filesystem where the output directory already exists. -/
def fsWithOut : FS :=
  [("public", Entry.dir), ("public/transparent", Entry.dir),
   (inPath "set1_silent.png", Entry.file [1])]

/-! ### Basic filesystem lemmas -/

theorem lookup_setFile_self (fs : FS) (p : Path) (d : Bytes) :
    lookupFS (setFile fs p d) p = some (Entry.file d) := by
  simp [setFile, lookupFS]

theorem lookup_setFile_ne (fs : FS) (p q : Path) (d : Bytes) (h : q ≠ p) :
    lookupFS (setFile fs p d) q = lookupFS fs q := by
  simp [setFile, lookupFS, h]

theorem writeFile_ok {fs : FS} {p : Path} (d : Bytes)
    (h : lookupFS fs p ≠ some Entry.dir) :
    writeFile fs p d = Except.ok (setFile fs p d) := by
  unfold writeFile
  cases hl : lookupFS fs p with
  | none => rfl
  | some e =>
    cases e with
    | file b => rfl
    | dir => exact absurd hl h

theorem writeFile_isdir {fs : FS} {p : Path} (d : Bytes)
    (h : lookupFS fs p = some Entry.dir) :
    writeFile fs p d = Except.error "IsADirectoryError" := by
  simp [writeFile, h]

theorem writeFile_ok_inv {fs g : FS} {p : Path} {d : Bytes}
    (h : writeFile fs p d = Except.ok g) :
    g = setFile fs p d ∧ lookupFS fs p ≠ some Entry.dir := by
  cases hl : lookupFS fs p with
  | none =>
    rw [writeFile_ok d (by simp [hl])] at h
    exact ⟨(Except.ok.injEq _ _ ▸ h).symm, by simp [hl]⟩
  | some e =>
    cases e with
    | file b =>
      rw [writeFile_ok d (by simp [hl])] at h
      exact ⟨(Except.ok.injEq _ _ ▸ h).symm, by simp [hl]⟩
    | dir => rw [writeFile_isdir d hl] at h; exact absurd h (by simp)

theorem readFile_congr {g fs : FS} {p : Path}
    (h : lookupFS g p = lookupFS fs p) : readFile g p = readFile fs p := by
  unfold readFile
  rw [h]

theorem pathExists_congr {g fs : FS} {p : Path}
    (h : lookupFS g p = lookupFS fs p) : pathExists g p = pathExists fs p := by
  unfold pathExists
  rw [h]

theorem readFile_ok_iff {fs : FS} {p : Path} {bs : Bytes} :
    readFile fs p = Except.ok bs ↔ lookupFS fs p = some (Entry.file bs) := by
  unfold readFile
  cases h : lookupFS fs p with
  | none => simp
  | some e => cases e <;> simp

theorem pathExists_of_readFile_ok {fs : FS} {p : Path} {bs : Bytes}
    (h : readFile fs p = Except.ok bs) : pathExists fs p = true := by
  rw [readFile_ok_iff] at h
  simp [pathExists, h]

theorem readFile_of_isdir {fs : FS} {p : Path}
    (h : lookupFS fs p = some Entry.dir) :
    readFile fs p = Except.error "IsADirectoryError" := by
  simp [readFile, h]

theorem readFile_total {fs : FS} {p : Path} (h : pathExists fs p = true) :
    (∃ bs, readFile fs p = Except.ok bs) ∨
      readFile fs p = Except.error "IsADirectoryError" := by
  unfold pathExists at h
  cases hl : lookupFS fs p with
  | none => rw [hl] at h; simp at h
  | some e =>
    cases e with
    | file d => exact Or.inl ⟨d, readFile_ok_iff.mpr hl⟩
    | dir => exact Or.inr (readFile_of_isdir hl)

/-! ### `remove_background` lemmas -/

theorem rb_ok {rem : Bytes → Except String Bytes} {fs : FS} {ip op : Path}
    {bs o : Bytes} (hr : readFile fs ip = Except.ok bs) (ho : rem bs = Except.ok o)
    (hnd : lookupFS fs op ≠ some Entry.dir) :
    remove_background rem fs ip op =
      Except.ok (setFile fs op o, [procLine ip, savedLine op],
        [Event.readF ip, Event.callRemove ip, Event.writeF op]) := by
  simp [remove_background, hr, ho, writeFile_ok o hnd]

theorem rb_read_err {rem : Bytes → Except String Bytes} {fs : FS} {ip op : Path}
    {e : String} (hr : readFile fs ip = Except.error e) :
    remove_background rem fs ip op =
      Except.error ([procLine ip], [Event.readF ip], e) := by
  simp [remove_background, hr]

theorem rb_rem_err {rem : Bytes → Except String Bytes} {fs : FS} {ip op : Path}
    {bs : Bytes} {e : String}
    (hr : readFile fs ip = Except.ok bs) (ho : rem bs = Except.error e) :
    remove_background rem fs ip op =
      Except.error ([procLine ip], [Event.readF ip, Event.callRemove ip], e) := by
  simp [remove_background, hr, ho]

theorem rb_write_err {rem : Bytes → Except String Bytes} {fs : FS} {ip op : Path}
    {bs o : Bytes}
    (hr : readFile fs ip = Except.ok bs) (ho : rem bs = Except.ok o)
    (hdir : lookupFS fs op = some Entry.dir) :
    remove_background rem fs ip op =
      Except.error ([procLine ip], [Event.readF ip, Event.callRemove ip],
        "IsADirectoryError") := by
  simp [remove_background, hr, ho, writeFile_isdir o hdir]

theorem rb_ok_inv {rem : Bytes → Except String Bytes} {fs : FS} {ip op : Path}
    {r : FS × List String × List Event}
    (h : remove_background rem fs ip op = Except.ok r) :
    ∃ bs o, readFile fs ip = Except.ok bs ∧ rem bs = Except.ok o ∧
      lookupFS fs op ≠ some Entry.dir ∧
      r = (setFile fs op o, [procLine ip, savedLine op],
        [Event.readF ip, Event.callRemove ip, Event.writeF op]) := by
  cases hr : readFile fs ip with
  | error e => rw [rb_read_err hr] at h; exact absurd h (by simp)
  | ok bs =>
    cases ho : rem bs with
    | error e => rw [rb_rem_err hr ho] at h; exact absurd h (by simp)
    | ok o =>
      cases hnd : lookupFS fs op with
      | some e =>
        cases e with
        | dir => rw [rb_write_err hr ho hnd] at h; exact absurd h (by simp)
        | file b =>
          rw [rb_ok hr ho (by simp [hnd])] at h
          exact ⟨bs, o, rfl, ho, by simp [hnd], (Except.ok.injEq _ _ ▸ h).symm⟩
      | none =>
        rw [rb_ok hr ho (by simp [hnd])] at h
        exact ⟨bs, o, rfl, ho, by simp [hnd], (Except.ok.injEq _ _ ▸ h).symm⟩

theorem rb_err_inv {rem : Bytes → Except String Bytes} {fs : FS} {ip op : Path}
    {l : List String} {evs : List Event} {e : String}
    (h : remove_background rem fs ip op = Except.error (l, evs, e)) :
    l = [procLine ip] ∧
      (evs = [Event.readF ip] ∨ evs = [Event.readF ip, Event.callRemove ip]) := by
  cases hr : readFile fs ip with
  | error e1 =>
    rw [rb_read_err hr] at h
    simp at h
    exact ⟨h.1.symm, Or.inl h.2.1.symm⟩
  | ok bs =>
    cases ho : rem bs with
    | error e1 =>
      rw [rb_rem_err hr ho] at h
      simp at h
      exact ⟨h.1.symm, Or.inr h.2.1.symm⟩
    | ok o =>
      cases hnd : lookupFS fs op with
      | some ent =>
        cases ent with
        | dir =>
          rw [rb_write_err hr ho hnd] at h
          simp at h
          exact ⟨h.1.symm, Or.inr h.2.1.symm⟩
        | file b => rw [rb_ok hr ho (by simp [hnd])] at h; exact absurd h (by simp)
      | none => rw [rb_ok hr ho (by simp [hnd])] at h; exact absurd h (by simp)

theorem rb_ok_congr {rem : Bytes → Except String Bytes} {g fs : FS} {ip op : Path}
    {fs2 : FS} {l : List String} {evs : List Event}
    (hl : lookupFS g ip = lookupFS fs ip)
    (hgnd : lookupFS g op ≠ some Entry.dir)
    (h : remove_background rem fs ip op = Except.ok (fs2, l, evs)) :
    ∃ o, fs2 = setFile fs op o ∧
      remove_background rem g ip op = Except.ok (setFile g op o, l, evs) := by
  obtain ⟨bs, o, hr, ho, hnd, hq⟩ := rb_ok_inv h
  obtain ⟨h1, h2, h3⟩ : fs2 = setFile fs op o ∧ l = [procLine ip, savedLine op] ∧
      evs = [Event.readF ip, Event.callRemove ip, Event.writeF op] := by
    simpa using hq
  refine ⟨o, h1, ?_⟩
  rw [rb_ok (readFile_congr hl ▸ hr) ho hgnd, h2, h3]

theorem rb_err_congr {rem : Bytes → Except String Bytes} {g fs : FS} {ip op : Path}
    {x : List String × List Event × String}
    (hl : lookupFS g ip = lookupFS fs ip)
    (hop : lookupFS g op = lookupFS fs op)
    (h : remove_background rem fs ip op = Except.error x) :
    remove_background rem g ip op = Except.error x := by
  cases hr : readFile fs ip with
  | error e => rw [rb_read_err hr] at h; rw [rb_read_err (readFile_congr hl ▸ hr), h]
  | ok bs =>
    cases ho : rem bs with
    | error e =>
      rw [rb_rem_err hr ho] at h
      rw [rb_rem_err (readFile_congr hl ▸ hr) ho, h]
    | ok o =>
      cases hnd : lookupFS fs op with
      | some ent =>
        cases ent with
        | dir =>
          rw [rb_write_err hr ho hnd] at h
          rw [rb_write_err (readFile_congr hl ▸ hr) ho (hop.trans hnd), h]
        | file b =>
          rw [rb_ok hr ho (by simp [hnd])] at h
          exact absurd h (by simp)
      | none =>
        rw [rb_ok hr ho (by simp [hnd])] at h
        exact absurd h (by simp)

/-! ### `processIcons` step lemmas -/

theorem processIcons_nil (rem : Bytes → Except String Bytes) (fs : FS)
    (log : List String) (tr : List Event) :
    processIcons rem fs log tr [] = RunResult.ok fs log tr := rfl

theorem processIcons_skip {rem : Bytes → Except String Bytes} {fs : FS} {a : String}
    (log : List String) (tr : List Event) (rest : List String)
    (h : pathExists fs (inPath a) = false) :
    processIcons rem fs log tr (a :: rest) =
      processIcons rem fs (log ++ [notFoundLine (inPath a)])
        ((tr ++ [Event.check (inPath a)]) ++ [Event.notice (inPath a)]) rest := by
  simp [processIcons, h]

theorem processIcons_ok_step {rem : Bytes → Except String Bytes} {fs : FS} {a : String}
    {fs2 : FS} {l : List String} {evs : List Event}
    (log : List String) (tr : List Event) (rest : List String)
    (hex : pathExists fs (inPath a) = true)
    (hrb : remove_background rem fs (inPath a) (outPath a) = Except.ok (fs2, l, evs)) :
    processIcons rem fs log tr (a :: rest) =
      processIcons rem fs2 (log ++ l) ((tr ++ [Event.check (inPath a)]) ++ evs) rest := by
  simp [processIcons, hex, hrb]

theorem processIcons_err_step {rem : Bytes → Except String Bytes} {fs : FS} {a : String}
    {l : List String} {evs : List Event} {e : String}
    (log : List String) (tr : List Event) (rest : List String)
    (hex : pathExists fs (inPath a) = true)
    (hrb : remove_background rem fs (inPath a) (outPath a) = Except.error (l, evs, e)) :
    processIcons rem fs log tr (a :: rest) =
      RunResult.err fs (log ++ l) ((tr ++ [Event.check (inPath a)]) ++ evs) e := by
  simp [processIcons, hex, hrb]

/-! ### Frame, log and trace lemmas for the processing loop -/

theorem processIcons_frame (rem : Bytes → Except String Bytes) (L : List String) :
    ∀ (fs : FS) (log : List String) (tr : List Event) (q : Path),
      (∀ a ∈ L, q ≠ outPath a) →
      lookupFS (rrFS (processIcons rem fs log tr L)) q = lookupFS fs q := by
  induction L with
  | nil => intro fs log tr q _; rfl
  | cons a rest ih =>
    intro fs log tr q hq
    by_cases hex : pathExists fs (inPath a) = true
    · cases hrb : remove_background rem fs (inPath a) (outPath a) with
      | ok r =>
        obtain ⟨fs2, l, evs⟩ := r
        rw [processIcons_ok_step log tr rest hex hrb]
        obtain ⟨bs, o, hr, ho, hnd2, hq2⟩ := rb_ok_inv hrb
        have hfs2 : fs2 = setFile fs (outPath a) o := by
          simpa using congrArg Prod.fst hq2
        rw [ih fs2 _ _ q (fun b hb => hq b (List.mem_cons_of_mem a hb)), hfs2,
          lookup_setFile_ne _ _ _ _ (hq a (List.mem_cons_self a rest))]
      | error x =>
        obtain ⟨l, evs, e⟩ := x
        rw [processIcons_err_step log tr rest hex hrb]
        rfl
    · have hex' : pathExists fs (inPath a) = false := by simpa using hex
      rw [processIcons_skip log tr rest hex']
      exact ih fs _ _ q (fun b hb => hq b (List.mem_cons_of_mem a hb))

theorem processIcons_log_mono (rem : Bytes → Except String Bytes) (L : List String) :
    ∀ (fs : FS) (log : List String) (tr : List Event),
      ∃ suf, rrLog (processIcons rem fs log tr L) = log ++ suf := by
  induction L with
  | nil => intro fs log tr; exact ⟨[], by simp [processIcons_nil, rrLog]⟩
  | cons a rest ih =>
    intro fs log tr
    by_cases hex : pathExists fs (inPath a) = true
    · cases hrb : remove_background rem fs (inPath a) (outPath a) with
      | ok r =>
        obtain ⟨fs2, l, evs⟩ := r
        rw [processIcons_ok_step log tr rest hex hrb]
        obtain ⟨suf, hsuf⟩ := ih fs2 (log ++ l) ((tr ++ [Event.check (inPath a)]) ++ evs)
        exact ⟨l ++ suf, by rw [hsuf, List.append_assoc]⟩
      | error x =>
        obtain ⟨l, evs, e⟩ := x
        rw [processIcons_err_step log tr rest hex hrb]
        exact ⟨l, rfl⟩
    · have hex' : pathExists fs (inPath a) = false := by simpa using hex
      rw [processIcons_skip log tr rest hex']
      obtain ⟨suf, hsuf⟩ := ih fs (log ++ [notFoundLine (inPath a)])
        ((tr ++ [Event.check (inPath a)]) ++ [Event.notice (inPath a)])
      exact ⟨[notFoundLine (inPath a)] ++ suf, by rw [hsuf, List.append_assoc]⟩

theorem processIcons_trace (rem : Bytes → Except String Bytes) (L : List String) :
    ∀ (fs : FS) (log : List String) (tr : List Event),
      ∃ suf, rrTrace (processIcons rem fs log tr L) = tr ++ suf ∧
        ∀ ev ∈ suf, ∃ a, a ∈ L ∧ (evPath ev = inPath a ∨ evPath ev = outPath a) := by
  induction L with
  | nil => intro fs log tr; exact ⟨[], by simp [processIcons_nil, rrTrace], by simp⟩
  | cons a rest ih =>
    intro fs log tr
    by_cases hex : pathExists fs (inPath a) = true
    · cases hrb : remove_background rem fs (inPath a) (outPath a) with
      | ok r =>
        obtain ⟨fs2, l, evs⟩ := r
        obtain ⟨bs, o, hr, ho, hnd2, hq2⟩ := rb_ok_inv hrb
        have hevs : evs = [Event.readF (inPath a), Event.callRemove (inPath a),
            Event.writeF (outPath a)] := by
          simpa using congrArg (fun z => z.2.2) hq2
        rw [processIcons_ok_step log tr rest hex hrb]
        obtain ⟨suf, hsuf, hmem⟩ := ih fs2 (log ++ l) ((tr ++ [Event.check (inPath a)]) ++ evs)
        refine ⟨([Event.check (inPath a)] ++ evs) ++ suf, ?_, ?_⟩
        · rw [hsuf]; simp [List.append_assoc]
        · intro ev hev
          rcases List.mem_append.mp hev with hev1 | hev2
          · refine ⟨a, List.mem_cons_self a rest, ?_⟩
            rw [hevs] at hev1
            simp only [List.mem_append, List.mem_cons, List.not_mem_nil, or_false,
              List.mem_singleton] at hev1
            rcases hev1 with h | h | h | h <;> subst h <;> simp [evPath]
          · obtain ⟨b, hb, hp⟩ := hmem ev hev2
            exact ⟨b, List.mem_cons_of_mem a hb, hp⟩
      | error x =>
        obtain ⟨l, evs, e⟩ := x
        obtain ⟨hl, hevs⟩ := rb_err_inv hrb
        rw [processIcons_err_step log tr rest hex hrb]
        refine ⟨[Event.check (inPath a)] ++ evs, by simp [rrTrace, List.append_assoc], ?_⟩
        intro ev hev
        refine ⟨a, List.mem_cons_self a rest, ?_⟩
        rcases hevs with h | h <;> rw [h] at hev <;>
          simp only [List.mem_append, List.mem_cons, List.not_mem_nil, or_false,
            List.mem_singleton] at hev
        · rcases hev with h1 | h1 <;> subst h1 <;> simp [evPath]
        · rcases hev with h1 | h1 | h1 <;> subst h1 <;> simp [evPath]
    · have hex' : pathExists fs (inPath a) = false := by simpa using hex
      rw [processIcons_skip log tr rest hex']
      obtain ⟨suf, hsuf, hmem⟩ := ih fs (log ++ [notFoundLine (inPath a)])
        ((tr ++ [Event.check (inPath a)]) ++ [Event.notice (inPath a)])
      refine ⟨([Event.check (inPath a)] ++ [Event.notice (inPath a)]) ++ suf, ?_, ?_⟩
      · rw [hsuf]; simp [List.append_assoc]
      · intro ev hev
        rcases List.mem_append.mp hev with hev1 | hev2
        · refine ⟨a, List.mem_cons_self a rest, ?_⟩
          simp only [List.mem_append, List.mem_singleton] at hev1
          rcases hev1 with h | h <;> subst h <;> simp [evPath]
        · obtain ⟨b, hb, hp⟩ := hmem ev hev2
          exact ⟨b, List.mem_cons_of_mem a hb, hp⟩

theorem runFrom_rrFS (rem : Bytes → Except String Bytes) (fs1 : FS) :
    rrFS (runFrom rem fs1) = rrFS (processIcons rem fs1 banner [] icons) := by
  unfold runFrom
  cases processIcons rem fs1 banner [] icons <;> rfl

theorem runFrom_rrTrace (rem : Bytes → Except String Bytes) (fs1 : FS) :
    rrTrace (runFrom rem fs1) = rrTrace (processIcons rem fs1 banner [] icons) := by
  unfold runFrom
  cases processIcons rem fs1 banner [] icons <;> rfl

/-! ### Decidable facts about the hard-coded configuration -/

theorem icons_in_ne_out : ∀ a ∈ icons, ∀ b ∈ icons, inPath a ≠ outPath b := by decide

theorem icons_out_pairwise : icons.Pairwise fun a b => outPath a ≠ outPath b := by decide

theorem icons_in_pairwise : icons.Pairwise fun a b => inPath a ≠ inPath b := by decide

theorem icons_paths_not_base : ∀ a ∈ icons,
    inPath a ≠ "public" ∧ inPath a ≠ "public/transparent" ∧
      outPath a ≠ "public" ∧ outPath a ≠ "public/transparent" := by decide

/-! ### Concrete behaviour of `makedirs` on the output directory -/

theorem makedirs_spec (fs : FS) :
    makedirs fs output_dir =
      if pathExists fs "public" = true then
        match lookupFS fs "public/transparent" with
        | some Entry.dir => (fs, none)
        | some (Entry.file _) => (fs, some "FileExistsError")
        | none =>
          match lookupFS fs "public" with
          | some Entry.dir => (("public/transparent", Entry.dir) :: fs, none)
          | _ => (fs, some "NotADirectoryError")
      else
        match lookupFS fs "public/transparent" with
        | some Entry.dir => (("public", Entry.dir) :: fs, none)
        | some (Entry.file _) => (("public", Entry.dir) :: fs, some "FileExistsError")
        | none =>
          (("public/transparent", Entry.dir) :: ("public", Entry.dir) :: fs, none) := by
  have h0 : makedirs fs output_dir = makedirsR fs ["transparent", "public"] := rfl
  rw [h0]
  by_cases hp : pathExists fs "public" = true
  · rw [if_pos hp]
    cases ht : lookupFS fs "public/transparent" with
    | none =>
      cases hpub : lookupFS fs "public" with
      | none => rw [pathExists, hpub] at hp; simp at hp
      | some e =>
        cases e with
        | dir =>
          simp [makedirsR, mkdirR, isdir, joinParts, hp, ht, hpub]
        | file d =>
          simp [makedirsR, mkdirR, isdir, joinParts, hp, ht, hpub]
    | some e =>
      cases e with
      | dir => simp [makedirsR, mkdirR, isdir, joinParts, hp, ht]
      | file d => simp [makedirsR, mkdirR, isdir, joinParts, hp, ht]
  · have hp' : pathExists fs "public" = false := by simpa using hp
    rw [if_neg hp]
    have hpub : lookupFS fs "public" = none := by
      cases hq : lookupFS fs "public" with
      | none => rfl
      | some e => rw [pathExists, hq] at hp'; simp at hp'
    cases ht : lookupFS fs "public/transparent" with
    | none => simp [makedirsR, mkdirR, isdir, joinParts, hp', ht, hpub, lookupFS]
    | some e =>
      cases e with
      | dir => simp [makedirsR, mkdirR, isdir, joinParts, hp', ht, hpub, lookupFS]
      | file d => simp [makedirsR, mkdirR, isdir, joinParts, hp', ht, hpub, lookupFS]

theorem makedirs_cases (fs : FS) :
    (∃ fs1, makedirs fs output_dir = (fs1, none) ∧
      lookupFS fs1 "public/transparent" = some Entry.dir ∧
      pathExists fs1 "public" = true ∧
      (∀ q, q ≠ "public" → q ≠ "public/transparent" → lookupFS fs1 q = lookupFS fs q) ∧
      (lookupFS fs1 "public" = lookupFS fs "public" ∨
        lookupFS fs1 "public" = some Entry.dir) ∧
      (lookupFS fs1 "public/transparent" = lookupFS fs "public/transparent" ∨
        lookupFS fs1 "public/transparent" = some Entry.dir)) ∨
    (∃ fs1 e, makedirs fs output_dir = (fs1, some e) ∧
      (∀ q, q ≠ "public" → lookupFS fs1 q = lookupFS fs q) ∧
      (lookupFS fs1 "public" = lookupFS fs "public" ∨
        lookupFS fs1 "public" = some Entry.dir)) := by
  rw [makedirs_spec]
  by_cases hp : pathExists fs "public" = true
  · rw [if_pos hp]
    cases ht : lookupFS fs "public/transparent" with
    | none =>
      cases hpub : lookupFS fs "public" with
      | none => rw [pathExists, hpub] at hp; simp at hp
      | some e =>
        cases e with
        | dir =>
          refine Or.inl ⟨("public/transparent", Entry.dir) :: fs, rfl, ?_, ?_, ?_, ?_, ?_⟩
          · simp [lookupFS]
          · simp [pathExists, lookupFS, hpub]
          · intro q h1 h2; simp [lookupFS, h2]
          · exact Or.inl (by simp [lookupFS, hpub])
          · exact Or.inr (by simp [lookupFS])
        | file d =>
          exact Or.inr ⟨fs, "NotADirectoryError", rfl, fun q _ => rfl, Or.inl hpub⟩
    | some e =>
      cases e with
      | dir => exact Or.inl ⟨fs, rfl, ht, hp, fun q _ _ => rfl, Or.inl rfl, Or.inl ht⟩
      | file d =>
        exact Or.inr ⟨fs, "FileExistsError", rfl, fun q _ => rfl, Or.inl rfl⟩
  · rw [if_neg hp]
    cases ht : lookupFS fs "public/transparent" with
    | none =>
      refine Or.inl ⟨("public/transparent", Entry.dir) :: ("public", Entry.dir) :: fs,
        rfl, ?_, ?_, ?_, ?_, ?_⟩
      · simp [lookupFS]
      · simp [pathExists, lookupFS]
      · intro q h1 h2; simp [lookupFS, h1, h2]
      · exact Or.inr (by simp [lookupFS])
      · exact Or.inr (by simp [lookupFS])
    | some e =>
      cases e with
      | dir =>
        refine Or.inl ⟨("public", Entry.dir) :: fs, rfl, ?_, ?_, ?_, ?_, ?_⟩
        · simp only [lookupFS]
          rw [if_neg (by decide)]
          exact ht
        · simp [pathExists, lookupFS]
        · intro q h1 h2; simp [lookupFS, h1]
        · exact Or.inr (by simp [lookupFS])
        · refine Or.inl ?_
          simp only [lookupFS]
          rw [if_neg (by decide)]
          exact ht
      | file d =>
        refine Or.inr ⟨("public", Entry.dir) :: fs, "FileExistsError", rfl, ?_, ?_⟩
        · intro q h1; simp [lookupFS, h1]
        · exact Or.inr (by simp [lookupFS])

theorem makedirs_frame (fs : FS) (q : Path)
    (h1 : q ≠ "public") (h2 : q ≠ "public/transparent") :
    lookupFS (makedirs fs output_dir).1 q = lookupFS fs q := by
  rcases makedirs_cases fs with ⟨fs1, hmk, _, _, hfr, _, _⟩ | ⟨fs1, e, hmk, hfr, _⟩
  · rw [hmk]; exact hfr q h1 h2
  · rw [hmk]; exact hfr q h1

theorem makedirs_ok_dirs (fs : FS) (h : (makedirs fs output_dir).2 = none) :
    lookupFS (makedirs fs output_dir).1 "public/transparent" = some Entry.dir ∧
      pathExists (makedirs fs output_dir).1 "public" = true := by
  rcases makedirs_cases fs with ⟨fs1, hmk, hpt, hpub, _, _, _⟩ | ⟨fs1, e, hmk, _, _⟩
  · rw [hmk]; exact ⟨hpt, hpub⟩
  · rw [hmk] at h; simp at h

theorem makedirs_idem (fs : FS) (hp : pathExists fs "public" = true)
    (ht : lookupFS fs "public/transparent" = some Entry.dir) :
    makedirs fs output_dir = (fs, none) := by
  rw [makedirs_spec, if_pos hp, ht]

theorem makedirs_base_change (fs : FS) :
    (lookupFS (makedirs fs output_dir).1 "public" = lookupFS fs "public" ∨
      lookupFS (makedirs fs output_dir).1 "public" = some Entry.dir) ∧
    (lookupFS (makedirs fs output_dir).1 "public/transparent" =
        lookupFS fs "public/transparent" ∨
      lookupFS (makedirs fs output_dir).1 "public/transparent" = some Entry.dir) := by
  rcases makedirs_cases fs with ⟨fs1, hmk, _, _, _, hb1, hb2⟩ | ⟨fs1, e, hmk, hfr, hb1⟩
  · rw [hmk]; exact ⟨hb1, hb2⟩
  · rw [hmk]
    refine ⟨hb1, Or.inl ?_⟩
    exact hfr "public/transparent" (by decide)

/-! ### Inversion of `main` -/

theorem main_ok_inv {rem : Bytes → Except String Bytes} {fs fs1 : FS}
    {log1 : List String} {tr1 : List Event}
    (h : main rem fs = RunResult.ok fs1 log1 tr1) :
    ∃ fsm log0, makedirs fs output_dir = (fsm, none) ∧
      processIcons rem fsm banner [] icons = RunResult.ok fs1 log0 tr1 ∧
      log1 = log0 ++ footer := by
  unfold main at h
  cases hmk : makedirs fs output_dir with
  | mk fsm o =>
    rw [hmk] at h
    cases o with
    | some e =>
      have h2 : RunResult.err fsm [] [] e = RunResult.ok fs1 log1 tr1 := h
      exact absurd h2 (by simp)
    | none =>
      have h2 : runFrom rem fsm = RunResult.ok fs1 log1 tr1 := h
      unfold runFrom at h2
      cases hpi : processIcons rem fsm banner [] icons with
      | ok fs2 log2 tr2 =>
        rw [hpi] at h2
        obtain ⟨hfs, hlog, htr⟩ : fs2 = fs1 ∧ log2 ++ footer = log1 ∧ tr2 = tr1 := by
          simpa using h2
        refine ⟨fsm, log2, rfl, ?_, hlog.symm⟩
        rw [← hfs, ← htr]
        exact hpi
      | err fs2 log2 tr2 e => rw [hpi] at h2; simp at h2

/-! ### A successful loop run writes each existing input's transformed bytes -/

theorem processIcons_ok_output (rem : Bytes → Except String Bytes) (L : List String)
    (j : String) :
    ∀ (fs : FS) (log : List String) (tr : List Event) (fs1 : FS) (log1 : List String)
      (tr1 : List Event),
      (∀ a ∈ L, ∀ b ∈ L, inPath a ≠ outPath b) →
      (L.Pairwise fun a b => outPath a ≠ outPath b) →
      processIcons rem fs log tr L = RunResult.ok fs1 log1 tr1 →
      j ∈ L → pathExists fs (inPath j) = true →
      ∃ bs o, readFile fs (inPath j) = Except.ok bs ∧ rem bs = Except.ok o ∧
        lookupFS fs1 (outPath j) = some (Entry.file o) := by
  induction L with
  | nil =>
    intro fs log tr fs1 log1 tr1 _ _ _ hj _
    exact absurd hj (List.not_mem_nil j)
  | cons a rest ih =>
    intro fs log tr fs1 log1 tr1 hd1 hd2 hrun hj hex
    rcases List.mem_cons.mp hj with rfl | hjr
    · cases hrb : remove_background rem fs (inPath j) (outPath j) with
      | ok r =>
        obtain ⟨fs2, l, evs⟩ := r
        rw [processIcons_ok_step log tr rest hex hrb] at hrun
        obtain ⟨bs, o, hr, ho, hnd2, hq⟩ := rb_ok_inv hrb
        have hfs2 : fs2 = setFile fs (outPath j) o := by
          simpa using congrArg Prod.fst hq
        refine ⟨bs, o, hr, ho, ?_⟩
        have hfr : lookupFS (rrFS (processIcons rem fs2 (log ++ l)
            ((tr ++ [Event.check (inPath j)]) ++ evs) rest)) (outPath j) =
            lookupFS fs2 (outPath j) := by
          apply processIcons_frame
          intro b hb
          exact (List.pairwise_cons.mp hd2).1 b hb
        rw [hrun] at hfr
        simpa [rrFS, hfs2, lookup_setFile_self] using hfr
      | error x =>
        obtain ⟨l, evs, e⟩ := x
        rw [processIcons_err_step log tr rest hex hrb] at hrun
        exact absurd hrun (by simp)
    · by_cases hexa : pathExists fs (inPath a) = true
      · cases hrb : remove_background rem fs (inPath a) (outPath a) with
        | ok r =>
          obtain ⟨fs2, l, evs⟩ := r
          rw [processIcons_ok_step log tr rest hexa hrb] at hrun
          obtain ⟨bs0, o0, hr0, ho0, hnd0, hq0⟩ := rb_ok_inv hrb
          have hfs2 : fs2 = setFile fs (outPath a) o0 := by
            simpa using congrArg Prod.fst hq0
          have hlk : lookupFS fs2 (inPath j) = lookupFS fs (inPath j) := by
            rw [hfs2]
            exact lookup_setFile_ne _ _ _ _
              (hd1 j (List.mem_cons_of_mem a hjr) a (List.mem_cons_self a rest))
          have hex2 : pathExists fs2 (inPath j) = true := by
            rw [pathExists_congr hlk]; exact hex
          obtain ⟨bs, o, hr, ho, hout⟩ := ih fs2 _ _ fs1 log1 tr1
            (fun x hx y hy => hd1 x (List.mem_cons_of_mem a hx) y (List.mem_cons_of_mem a hy))
            (List.Pairwise.of_cons hd2) hrun hjr hex2
          exact ⟨bs, o, by rw [← readFile_congr hlk]; exact hr, ho, hout⟩
        | error x =>
          obtain ⟨l, evs, e⟩ := x
          rw [processIcons_err_step log tr rest hexa hrb] at hrun
          exact absurd hrun (by simp)
      · have hexa' : pathExists fs (inPath a) = false := by simpa using hexa
        rw [processIcons_skip log tr rest hexa'] at hrun
        exact ih fs _ _ fs1 log1 tr1
          (fun x hx y hy => hd1 x (List.mem_cons_of_mem a hx) y (List.mem_cons_of_mem a hy))
          (List.Pairwise.of_cons hd2) hrun hjr hex

/-! ### An aborted loop run: earlier outputs written, later outputs untouched -/

theorem processIcons_abort (rem : Bytes → Except String Bytes) (n : String)
    (post : List String) (l : List String) (evs : List Event) (e : String) :
    ∀ (pre : List String) (fs : FS) (log : List String) (tr : List Event),
      (∀ a ∈ pre ++ n :: post, ∀ b ∈ pre ++ n :: post, inPath a ≠ outPath b) →
      ((pre ++ n :: post).Pairwise fun a b => outPath a ≠ outPath b) →
      (∀ a ∈ pre, pathExists fs (inPath a) = true →
        ∃ bs o, readFile fs (inPath a) = Except.ok bs ∧ rem bs = Except.ok o ∧
          lookupFS fs (outPath a) ≠ some Entry.dir) →
      pathExists fs (inPath n) = true →
      remove_background rem fs (inPath n) (outPath n) = Except.error (l, evs, e) →
      ∃ fs_e log_e tr_e,
        processIcons rem fs log tr (pre ++ n :: post) = RunResult.err fs_e log_e tr_e e ∧
        (∀ a ∈ pre, pathExists fs (inPath a) = true →
          ∃ bs o, readFile fs (inPath a) = Except.ok bs ∧ rem bs = Except.ok o ∧
            lookupFS fs_e (outPath a) = some (Entry.file o)) ∧
        (∀ m ∈ n :: post, lookupFS fs_e (outPath m) = lookupFS fs (outPath m)) ∧
        (Event.notice (inPath n) ∈ tr_e → Event.notice (inPath n) ∈ tr) := by
  intro pre
  induction pre with
  | nil =>
    intro fs log tr hd1 hd2 hpre hexn hfail
    refine ⟨fs, log ++ l, (tr ++ [Event.check (inPath n)]) ++ evs, ?_, ?_, ?_, ?_⟩
    · simpa using processIcons_err_step log tr post hexn hfail
    · intro a ha; exact absurd ha (List.not_mem_nil a)
    · intro m hm; rfl
    · intro hnot
      obtain ⟨hl, hevs⟩ := rb_err_inv hfail
      rcases List.mem_append.mp hnot with h1 | h2
      · rcases List.mem_append.mp h1 with h3 | h4
        · exact h3
        · simp at h4
      · rcases hevs with h | h <;> rw [h] at h2 <;> simp at h2
  | cons a pre' ih =>
    intro fs log tr hd1 hd2 hpre hexn hfail
    simp only [List.cons_append] at hd1 hd2 ⊢
    have hd1' : ∀ x ∈ pre' ++ n :: post, ∀ y ∈ pre' ++ n :: post, inPath x ≠ outPath y :=
      fun x hx y hy => hd1 x (List.mem_cons_of_mem a hx) y (List.mem_cons_of_mem a hy)
    have hd2' : (pre' ++ n :: post).Pairwise fun x y => outPath x ≠ outPath y :=
      (List.pairwise_cons.mp hd2).2
    have hd2h : ∀ b ∈ pre' ++ n :: post, outPath a ≠ outPath b :=
      (List.pairwise_cons.mp hd2).1
    by_cases hexa : pathExists fs (inPath a) = true
    · obtain ⟨bs0, o0, hr0, ho0, hnd0⟩ := hpre a (by simp) hexa
      have hrb : remove_background rem fs (inPath a) (outPath a) =
          Except.ok (setFile fs (outPath a) o0,
            [procLine (inPath a), savedLine (outPath a)],
            [Event.readF (inPath a), Event.callRemove (inPath a),
              Event.writeF (outPath a)]) := rb_ok hr0 ho0 hnd0
      have hlkIn : ∀ x ∈ pre' ++ n :: post,
          lookupFS (setFile fs (outPath a) o0) (inPath x) = lookupFS fs (inPath x) := by
        intro x hx
        exact lookup_setFile_ne _ _ _ _ (hd1 x (List.mem_cons_of_mem a hx) a (by simp))
      have hlkOut : ∀ x ∈ pre' ++ n :: post,
          lookupFS (setFile fs (outPath a) o0) (outPath x) = lookupFS fs (outPath x) := by
        intro x hx
        exact lookup_setFile_ne _ _ _ _ (hd2h x hx).symm
      have hpre'W : ∀ x ∈ pre',
          pathExists (setFile fs (outPath a) o0) (inPath x) = true →
          ∃ bs o, readFile (setFile fs (outPath a) o0) (inPath x) = Except.ok bs ∧
            rem bs = Except.ok o ∧
            lookupFS (setFile fs (outPath a) o0) (outPath x) ≠ some Entry.dir := by
        intro x hx hexx
        have hlk := hlkIn x (List.mem_append_left _ hx)
        obtain ⟨bs, o, hr, ho, hnd⟩ := hpre x (List.mem_cons_of_mem a hx)
          (by rw [← pathExists_congr hlk]; exact hexx)
        refine ⟨bs, o, by rw [readFile_congr hlk]; exact hr, ho, ?_⟩
        rw [hlkOut x (List.mem_append_left _ hx)]
        exact hnd
      have hexnW : pathExists (setFile fs (outPath a) o0) (inPath n) = true := by
        rw [pathExists_congr (hlkIn n (by simp))]; exact hexn
      have hfailW : remove_background rem (setFile fs (outPath a) o0)
          (inPath n) (outPath n) = Except.error (l, evs, e) :=
        rb_err_congr (hlkIn n (by simp)) (hlkOut n (by simp)) hfail
      obtain ⟨fs_e, log_e, tr_e, hrunW, hpreOut, hunch, hnotice⟩ :=
        ih (setFile fs (outPath a) o0)
          (log ++ [procLine (inPath a), savedLine (outPath a)])
          ((tr ++ [Event.check (inPath a)]) ++
            [Event.readF (inPath a), Event.callRemove (inPath a), Event.writeF (outPath a)])
          hd1' hd2' hpre'W hexnW hfailW
      refine ⟨fs_e, log_e, tr_e, ?_, ?_, ?_, ?_⟩
      · rw [processIcons_ok_step log tr (pre' ++ n :: post) hexa hrb]
        exact hrunW
      · intro x hx hexx
        rcases List.mem_cons.mp hx with rfl | hx'
        · refine ⟨bs0, o0, hr0, ho0, ?_⟩
          have hfr : lookupFS (rrFS (processIcons rem (setFile fs (outPath x) o0)
              (log ++ [procLine (inPath x), savedLine (outPath x)])
              ((tr ++ [Event.check (inPath x)]) ++
                [Event.readF (inPath x), Event.callRemove (inPath x), Event.writeF (outPath x)])
              (pre' ++ n :: post))) (outPath x) =
              lookupFS (setFile fs (outPath x) o0) (outPath x) :=
            processIcons_frame rem (pre' ++ n :: post) _ _ _ _ hd2h
          rw [hrunW] at hfr
          simpa [rrFS, lookup_setFile_self] using hfr
        · have hlk := hlkIn x (List.mem_append_left _ hx')
          obtain ⟨bs, o, hr, ho, hout⟩ := hpreOut x hx'
            (by rw [pathExists_congr hlk]; exact hexx)
          refine ⟨bs, o, ?_, ho, hout⟩
          rw [← readFile_congr hlk]
          exact hr
      · intro m hm
        rw [hunch m hm]
        exact hlkOut m (List.mem_append_right _ hm)
      · intro hnot
        have h2 := hnotice hnot
        rcases List.mem_append.mp h2 with h3 | h4
        · rcases List.mem_append.mp h3 with h5 | h6
          · exact h5
          · simp at h6
        · simp at h4
    · have hexa' : pathExists fs (inPath a) = false := by simpa using hexa
      have hpre' : ∀ x ∈ pre', pathExists fs (inPath x) = true →
          ∃ bs o, readFile fs (inPath x) = Except.ok bs ∧ rem bs = Except.ok o ∧
            lookupFS fs (outPath x) ≠ some Entry.dir :=
        fun x hx => hpre x (List.mem_cons_of_mem a hx)
      obtain ⟨fs_e, log_e, tr_e, hrunW, hpreOut, hunch, hnotice⟩ :=
        ih fs (log ++ [notFoundLine (inPath a)])
          ((tr ++ [Event.check (inPath a)]) ++ [Event.notice (inPath a)])
          hd1' hd2' hpre' hexn hfail
      refine ⟨fs_e, log_e, tr_e, ?_, ?_, ?_, ?_⟩
      · rw [processIcons_skip log tr (pre' ++ n :: post) hexa']
        exact hrunW
      · intro x hx hexx
        rcases List.mem_cons.mp hx with rfl | hx'
        · exact absurd hexx (by simp [hexa'])
        · exact hpreOut x hx' hexx
      · exact hunch
      · intro hnot
        have h2 := hnotice hnot
        rcases List.mem_append.mp h2 with h3 | h4
        · rcases List.mem_append.mp h3 with h5 | h6
          · exact h5
          · simp at h6
        · simp at h4
          have h5 : inPath n = inPath a := h4
          rw [h5] at hexn
          exact absurd hexn (by simp [hexa'])

/-- When the list member `n`'s input path is bound to a directory, the loop
aborts with the read step's `IsADirectoryError` — whether it reaches `n`
(its `open(...,'rb')` raises) or an earlier icon's output write hits a
directory first (that `open(...,'wb')` raises the same error): later
outputs stay untouched and no skip notice for `n`'s input is emitted. -/
theorem processIcons_abort_isdir (rem : Bytes → Except String Bytes) (n : String)
    (post : List String) :
    ∀ (pre : List String) (fs : FS) (log : List String) (tr : List Event),
      (∀ a ∈ pre ++ n :: post, ∀ b ∈ pre ++ n :: post, inPath a ≠ outPath b) →
      ((pre ++ n :: post).Pairwise fun a b => outPath a ≠ outPath b) →
      (∀ a ∈ pre, pathExists fs (inPath a) = true →
        ∃ bs o, readFile fs (inPath a) = Except.ok bs ∧ rem bs = Except.ok o) →
      lookupFS fs (inPath n) = some Entry.dir →
      ∃ fs_e log_e tr_e,
        processIcons rem fs log tr (pre ++ n :: post) =
          RunResult.err fs_e log_e tr_e "IsADirectoryError" ∧
        (∀ m ∈ n :: post, lookupFS fs_e (outPath m) = lookupFS fs (outPath m)) ∧
        (Event.notice (inPath n) ∈ tr_e → Event.notice (inPath n) ∈ tr) := by
  intro pre
  induction pre with
  | nil =>
    intro fs log tr hd1 hd2 hpre hdirn
    have hexn : pathExists fs (inPath n) = true := by simp [pathExists, hdirn]
    have hfail : remove_background rem fs (inPath n) (outPath n) =
        Except.error ([procLine (inPath n)], [Event.readF (inPath n)],
          "IsADirectoryError") :=
      rb_read_err (readFile_of_isdir hdirn)
    refine ⟨fs, log ++ [procLine (inPath n)],
      (tr ++ [Event.check (inPath n)]) ++ [Event.readF (inPath n)], ?_, ?_, ?_⟩
    · simpa using processIcons_err_step log tr post hexn hfail
    · intro m hm; rfl
    · intro hnot
      rcases List.mem_append.mp hnot with h1 | h2
      · rcases List.mem_append.mp h1 with h3 | h4
        · exact h3
        · simp at h4
      · simp at h2
  | cons a pre' ih =>
    intro fs log tr hd1 hd2 hpre hdirn
    simp only [List.cons_append] at hd1 hd2 ⊢
    have hd1' : ∀ x ∈ pre' ++ n :: post, ∀ y ∈ pre' ++ n :: post, inPath x ≠ outPath y :=
      fun x hx y hy => hd1 x (List.mem_cons_of_mem a hx) y (List.mem_cons_of_mem a hy)
    have hd2' : (pre' ++ n :: post).Pairwise fun x y => outPath x ≠ outPath y :=
      (List.pairwise_cons.mp hd2).2
    have hd2h : ∀ b ∈ pre' ++ n :: post, outPath a ≠ outPath b :=
      (List.pairwise_cons.mp hd2).1
    have hnin : inPath n ≠ outPath a :=
      hd1 n (List.mem_cons_of_mem a (by simp)) a (by simp)
    by_cases hexa : pathExists fs (inPath a) = true
    · obtain ⟨bs0, o0, hr0, ho0⟩ := hpre a (by simp) hexa
      by_cases houtd : lookupFS fs (outPath a) = some Entry.dir
      · have hfail : remove_background rem fs (inPath a) (outPath a) =
            Except.error ([procLine (inPath a)],
              [Event.readF (inPath a), Event.callRemove (inPath a)],
              "IsADirectoryError") := rb_write_err hr0 ho0 houtd
        refine ⟨fs, log ++ [procLine (inPath a)],
          (tr ++ [Event.check (inPath a)]) ++
            [Event.readF (inPath a), Event.callRemove (inPath a)], ?_, ?_, ?_⟩
        · rw [processIcons_err_step log tr (pre' ++ n :: post) hexa hfail]
        · intro m hm; rfl
        · intro hnot
          rcases List.mem_append.mp hnot with h1 | h2
          · rcases List.mem_append.mp h1 with h3 | h4
            · exact h3
            · simp at h4
          · simp at h2
      · have hrb : remove_background rem fs (inPath a) (outPath a) =
            Except.ok (setFile fs (outPath a) o0,
              [procLine (inPath a), savedLine (outPath a)],
              [Event.readF (inPath a), Event.callRemove (inPath a),
                Event.writeF (outPath a)]) := rb_ok hr0 ho0 houtd
        have hlkIn : ∀ x ∈ pre' ++ n :: post,
            lookupFS (setFile fs (outPath a) o0) (inPath x) = lookupFS fs (inPath x) := by
          intro x hx
          exact lookup_setFile_ne _ _ _ _ (hd1 x (List.mem_cons_of_mem a hx) a (by simp))
        have hlkOut : ∀ x ∈ pre' ++ n :: post,
            lookupFS (setFile fs (outPath a) o0) (outPath x) = lookupFS fs (outPath x) := by
          intro x hx
          exact lookup_setFile_ne _ _ _ _ (hd2h x hx).symm
        have hpre'W : ∀ x ∈ pre',
            pathExists (setFile fs (outPath a) o0) (inPath x) = true →
            ∃ bs o, readFile (setFile fs (outPath a) o0) (inPath x) = Except.ok bs ∧
              rem bs = Except.ok o := by
          intro x hx hexx
          have hlk := hlkIn x (List.mem_append_left _ hx)
          obtain ⟨bs, o, hr, ho⟩ := hpre x (List.mem_cons_of_mem a hx)
            (by rw [← pathExists_congr hlk]; exact hexx)
          exact ⟨bs, o, by rw [readFile_congr hlk]; exact hr, ho⟩
        have hdirnW : lookupFS (setFile fs (outPath a) o0) (inPath n) = some Entry.dir := by
          rw [hlkIn n (by simp)]
          exact hdirn
        obtain ⟨fs_e, log_e, tr_e, hrunW, hunch, hnotice⟩ :=
          ih (setFile fs (outPath a) o0)
            (log ++ [procLine (inPath a), savedLine (outPath a)])
            ((tr ++ [Event.check (inPath a)]) ++
              [Event.readF (inPath a), Event.callRemove (inPath a), Event.writeF (outPath a)])
            hd1' hd2' hpre'W hdirnW
        refine ⟨fs_e, log_e, tr_e, ?_, ?_, ?_⟩
        · rw [processIcons_ok_step log tr (pre' ++ n :: post) hexa hrb]
          exact hrunW
        · intro m hm
          rw [hunch m hm]
          exact hlkOut m (List.mem_append_right _ hm)
        · intro hnot
          have h2 := hnotice hnot
          rcases List.mem_append.mp h2 with h3 | h4
          · rcases List.mem_append.mp h3 with h5 | h6
            · exact h5
            · simp at h6
          · simp at h4
    · have hexa' : pathExists fs (inPath a) = false := by simpa using hexa
      have hpre' : ∀ x ∈ pre', pathExists fs (inPath x) = true →
          ∃ bs o, readFile fs (inPath x) = Except.ok bs ∧ rem bs = Except.ok o :=
        fun x hx => hpre x (List.mem_cons_of_mem a hx)
      obtain ⟨fs_e, log_e, tr_e, hrunW, hunch, hnotice⟩ :=
        ih fs (log ++ [notFoundLine (inPath a)])
          ((tr ++ [Event.check (inPath a)]) ++ [Event.notice (inPath a)])
          hd1' hd2' hpre' hdirn
      refine ⟨fs_e, log_e, tr_e, ?_, hunch, ?_⟩
      · rw [processIcons_skip log tr (pre' ++ n :: post) hexa']
        exact hrunW
      · intro hnot
        have h2 := hnotice hnot
        rcases List.mem_append.mp h2 with h3 | h4
        · rcases List.mem_append.mp h3 with h5 | h6
          · exact h5
          · simp at h6
        · simp at h4
          have h5 : inPath n = inPath a := h4
          have hexn : pathExists fs (inPath n) = true := by simp [pathExists, hdirn]
          rw [h5] at hexn
          exact absurd hexn (by simp [hexa'])

/-! ### When every existing input transforms and writes cleanly, the loop completes -/

theorem processIcons_completes (rem : Bytes → Except String Bytes) (L : List String) :
    ∀ (fs : FS) (log : List String) (tr : List Event),
      (∀ a ∈ L, ∀ b ∈ L, inPath a ≠ outPath b) →
      (L.Pairwise fun a b => outPath a ≠ outPath b) →
      (∀ a ∈ L, pathExists fs (inPath a) = true →
        ∃ bs o, readFile fs (inPath a) = Except.ok bs ∧ rem bs = Except.ok o ∧
          lookupFS fs (outPath a) ≠ some Entry.dir) →
      ∃ fs1 log1 tr1, processIcons rem fs log tr L = RunResult.ok fs1 log1 tr1 ∧
        ∀ j ∈ L, pathExists fs (inPath j) = false →
          notFoundLine (inPath j) ∈ log1 ∧
            lookupFS fs1 (outPath j) = lookupFS fs (outPath j) := by
  induction L with
  | nil =>
    intro fs log tr _ _ _
    exact ⟨fs, log, tr, processIcons_nil rem fs log tr,
      fun j hj => absurd hj (List.not_mem_nil j)⟩
  | cons a rest ih =>
    intro fs log tr hd1 hd2 hok
    have hd1' : ∀ x ∈ rest, ∀ y ∈ rest, inPath x ≠ outPath y :=
      fun x hx y hy => hd1 x (List.mem_cons_of_mem a hx) y (List.mem_cons_of_mem a hy)
    have hd2' : rest.Pairwise fun x y => outPath x ≠ outPath y :=
      (List.pairwise_cons.mp hd2).2
    have hd2h : ∀ b ∈ rest, outPath a ≠ outPath b := (List.pairwise_cons.mp hd2).1
    by_cases hexa : pathExists fs (inPath a) = true
    · obtain ⟨bs0, o0, hr0, ho0, hnd0⟩ := hok a (by simp) hexa
      have hrb : remove_background rem fs (inPath a) (outPath a) =
          Except.ok (setFile fs (outPath a) o0,
            [procLine (inPath a), savedLine (outPath a)],
            [Event.readF (inPath a), Event.callRemove (inPath a),
              Event.writeF (outPath a)]) := rb_ok hr0 ho0 hnd0
      have hlkIn : ∀ x ∈ rest,
          lookupFS (setFile fs (outPath a) o0) (inPath x) = lookupFS fs (inPath x) := by
        intro x hx
        exact lookup_setFile_ne _ _ _ _ (hd1 x (List.mem_cons_of_mem a hx) a (by simp))
      have hlkOut : ∀ x ∈ rest,
          lookupFS (setFile fs (outPath a) o0) (outPath x) = lookupFS fs (outPath x) := by
        intro x hx
        exact lookup_setFile_ne _ _ _ _ (hd2h x hx).symm
      have hok' : ∀ x ∈ rest,
          pathExists (setFile fs (outPath a) o0) (inPath x) = true →
          ∃ bs o, readFile (setFile fs (outPath a) o0) (inPath x) = Except.ok bs ∧
            rem bs = Except.ok o ∧
            lookupFS (setFile fs (outPath a) o0) (outPath x) ≠ some Entry.dir := by
        intro x hx hexx
        have hlk := hlkIn x hx
        obtain ⟨bs, o, hr, ho, hnd⟩ := hok x (List.mem_cons_of_mem a hx)
          (by rw [← pathExists_congr hlk]; exact hexx)
        refine ⟨bs, o, by rw [readFile_congr hlk]; exact hr, ho, ?_⟩
        rw [hlkOut x hx]
        exact hnd
      obtain ⟨fs1, log1, tr1, hrun, hskip⟩ :=
        ih (setFile fs (outPath a) o0)
          (log ++ [procLine (inPath a), savedLine (outPath a)])
          ((tr ++ [Event.check (inPath a)]) ++
            [Event.readF (inPath a), Event.callRemove (inPath a), Event.writeF (outPath a)])
          hd1' hd2' hok'
      refine ⟨fs1, log1, tr1, ?_, ?_⟩
      · rw [processIcons_ok_step log tr rest hexa hrb]
        exact hrun
      · intro j hj hmiss
        rcases List.mem_cons.mp hj with rfl | hj'
        · rw [hexa] at hmiss; exact absurd hmiss (by simp)
        · have hlk := hlkIn j hj'
          obtain ⟨hline, hout⟩ := hskip j hj' (by rw [pathExists_congr hlk]; exact hmiss)
          refine ⟨hline, ?_⟩
          rw [hout]
          exact hlkOut j hj'
    · have hexa' : pathExists fs (inPath a) = false := by simpa using hexa
      have hok' : ∀ x ∈ rest, pathExists fs (inPath x) = true →
          ∃ bs o, readFile fs (inPath x) = Except.ok bs ∧ rem bs = Except.ok o ∧
            lookupFS fs (outPath x) ≠ some Entry.dir :=
        fun x hx => hok x (List.mem_cons_of_mem a hx)
      obtain ⟨fs1, log1, tr1, hrun, hskip⟩ :=
        ih fs (log ++ [notFoundLine (inPath a)])
          ((tr ++ [Event.check (inPath a)]) ++ [Event.notice (inPath a)])
          hd1' hd2' hok'
      refine ⟨fs1, log1, tr1, ?_, ?_⟩
      · rw [processIcons_skip log tr rest hexa']
        exact hrun
      · intro j hj hmiss
        rcases List.mem_cons.mp hj with rfl | hj'
        · constructor
          · obtain ⟨suf, hs⟩ := processIcons_log_mono rem rest fs
              (log ++ [notFoundLine (inPath j)])
              ((tr ++ [Event.check (inPath j)]) ++ [Event.notice (inPath j)])
            rw [hrun] at hs
            have hs' : log1 = (log ++ [notFoundLine (inPath j)]) ++ suf := hs
            rw [hs']
            simp
          · have hfr := processIcons_frame rem rest fs
              (log ++ [notFoundLine (inPath j)])
              ((tr ++ [Event.check (inPath j)]) ++ [Event.notice (inPath j)])
              (outPath j) hd2h
            rw [hrun] at hfr
            exact hfr
        · exact hskip j hj' hmiss

/-! ### Two runs from input-equivalent filesystems proceed identically -/

theorem processIcons_bisim (rem : Bytes → Except String Bytes) (L : List String) :
    ∀ (fs g : FS) (log : List String) (tr : List Event) (fs1 : FS) (log1 : List String)
      (tr1 : List Event),
      (∀ a ∈ L, ∀ b ∈ L, inPath a ≠ outPath b) →
      (L.Pairwise fun a b => outPath a ≠ outPath b) →
      (∀ a ∈ L, lookupFS g (inPath a) = lookupFS fs (inPath a)) →
      (∀ a ∈ L, pathExists fs (inPath a) = true →
        lookupFS g (outPath a) ≠ some Entry.dir) →
      processIcons rem fs log tr L = RunResult.ok fs1 log1 tr1 →
      ∃ g1, processIcons rem g log tr L = RunResult.ok g1 log1 tr1 ∧
        ∀ q, lookupFS g1 q = lookupFS fs1 q ∨
          (lookupFS g1 q = lookupFS g q ∧ lookupFS fs1 q = lookupFS fs q) := by
  induction L with
  | nil =>
    intro fs g log tr fs1 log1 tr1 _ _ _ _ hrun
    rw [processIcons_nil] at hrun
    obtain ⟨hfs, hlog, htr⟩ : fs = fs1 ∧ log = log1 ∧ tr = tr1 := by simpa using hrun
    subst hfs; subst hlog; subst htr
    exact ⟨g, processIcons_nil rem g log tr, fun q => Or.inr ⟨rfl, rfl⟩⟩
  | cons a rest ih =>
    intro fs g log tr fs1 log1 tr1 hd1 hd2 hin hgnd hrun
    have hd1' : ∀ x ∈ rest, ∀ y ∈ rest, inPath x ≠ outPath y :=
      fun x hx y hy => hd1 x (List.mem_cons_of_mem a hx) y (List.mem_cons_of_mem a hy)
    have hd2' : rest.Pairwise fun x y => outPath x ≠ outPath y :=
      (List.pairwise_cons.mp hd2).2
    have hd2h : ∀ b ∈ rest, outPath a ≠ outPath b := (List.pairwise_cons.mp hd2).1
    have hexg : pathExists g (inPath a) = pathExists fs (inPath a) :=
      pathExists_congr (hin a (by simp))
    by_cases hexa : pathExists fs (inPath a) = true
    · cases hrb : remove_background rem fs (inPath a) (outPath a) with
      | ok r =>
        obtain ⟨fs2, l, evs⟩ := r
        rw [processIcons_ok_step log tr rest hexa hrb] at hrun
        obtain ⟨o, hfs2, hrbg⟩ := rb_ok_congr (hin a (by simp))
          (hgnd a (by simp) hexa) hrb
        have hinW : ∀ x ∈ rest,
            lookupFS (setFile g (outPath a) o) (inPath x) =
              lookupFS (setFile fs (outPath a) o) (inPath x) := by
          intro x hx
          have hne := hd1 x (List.mem_cons_of_mem a hx) a (by simp)
          rw [lookup_setFile_ne _ _ _ _ hne, lookup_setFile_ne _ _ _ _ hne]
          exact hin x (List.mem_cons_of_mem a hx)
        have hgndW : ∀ x ∈ rest,
            pathExists (setFile fs (outPath a) o) (inPath x) = true →
            lookupFS (setFile g (outPath a) o) (outPath x) ≠ some Entry.dir := by
          intro x hx hexx
          have hne_out : outPath x ≠ outPath a := (hd2h x hx).symm
          have hne_in : inPath x ≠ outPath a :=
            hd1 x (List.mem_cons_of_mem a hx) a (by simp)
          rw [lookup_setFile_ne _ _ _ _ hne_out]
          apply hgnd x (List.mem_cons_of_mem a hx)
          rw [← pathExists_congr (lookup_setFile_ne fs (outPath a) (inPath x) o hne_in)]
          exact hexx
        rw [hfs2] at hrun
        obtain ⟨g1, hgrun, hq⟩ := ih (setFile fs (outPath a) o)
          (setFile g (outPath a) o) (log ++ l) ((tr ++ [Event.check (inPath a)]) ++ evs)
          fs1 log1 tr1 hd1' hd2' hinW hgndW hrun
        refine ⟨g1, ?_, ?_⟩
        · rw [processIcons_ok_step log tr rest (hexg.trans hexa) hrbg]
          exact hgrun
        · intro q
          rcases hq q with hleft | ⟨e1, e2⟩
          · exact Or.inl hleft
          · by_cases hqa : q = outPath a
            · subst hqa
              rw [lookup_setFile_self] at e1 e2
              exact Or.inl (e1.trans e2.symm)
            · rw [lookup_setFile_ne _ _ _ _ hqa] at e1 e2
              exact Or.inr ⟨e1, e2⟩
      | error x =>
        obtain ⟨l, evs, e⟩ := x
        rw [processIcons_err_step log tr rest hexa hrb] at hrun
        exact absurd hrun (by simp)
    · have hexa' : pathExists fs (inPath a) = false := by simpa using hexa
      rw [processIcons_skip log tr rest hexa'] at hrun
      have hin' : ∀ x ∈ rest, lookupFS g (inPath x) = lookupFS fs (inPath x) :=
        fun x hx => hin x (List.mem_cons_of_mem a hx)
      have hgnd' : ∀ x ∈ rest, pathExists fs (inPath x) = true →
          lookupFS g (outPath x) ≠ some Entry.dir :=
        fun x hx => hgnd x (List.mem_cons_of_mem a hx)
      obtain ⟨g1, hgrun, hq⟩ := ih fs g (log ++ [notFoundLine (inPath a)])
        ((tr ++ [Event.check (inPath a)]) ++ [Event.notice (inPath a)]) fs1 log1 tr1
        hd1' hd2' hin' hgnd' hrun
      refine ⟨g1, ?_, hq⟩
      rw [processIcons_skip log tr rest (hexg.trans hexa')]
      exact hgrun

/-! ### An icon's output write precedes every event of the next icon -/

theorem processIcons_write_order (rem : Bytes → Except String Bytes)
    (x y : String) (post : List String) :
    ∀ (pre : List String) (fs : FS) (log : List String) (tr : List Event),
      (∀ a ∈ pre ++ x :: y :: post, ∀ b ∈ pre ++ x :: y :: post, inPath a ≠ outPath b) →
      ((pre ++ x :: y :: post).Pairwise fun a b => outPath a ≠ outPath b) →
      ((pre ++ x :: y :: post).Pairwise fun a b => inPath a ≠ inPath b) →
      Event.writeF (outPath x) ∈
        rrTrace (processIcons rem fs log tr (pre ++ x :: y :: post)) →
      Event.writeF (outPath x) ∉ tr →
      ∃ t1 t2,
        rrTrace (processIcons rem fs log tr (pre ++ x :: y :: post)) =
          t1 ++ Event.writeF (outPath x) :: t2 ∧
        ∀ ev ∈ t1, ev ∈ tr ∨ (evPath ev ≠ inPath y ∧ evPath ev ≠ outPath y) := by
  intro pre
  induction pre with
  | nil =>
    intro fs log tr hd1 hd2 hdin hw hnt
    simp only [List.nil_append] at hd1 hd2 hdin hw ⊢
    by_cases hexx : pathExists fs (inPath x) = true
    · cases hrb : remove_background rem fs (inPath x) (outPath x) with
      | ok r =>
        obtain ⟨fs2, l, evs⟩ := r
        obtain ⟨bs, o, hr, ho, hnd2, hq⟩ := rb_ok_inv hrb
        have hevs : evs = [Event.readF (inPath x), Event.callRemove (inPath x),
            Event.writeF (outPath x)] := by
          simpa using congrArg (fun z => z.2.2) hq
        rw [processIcons_ok_step log tr (y :: post) hexx hrb]
        obtain ⟨suf, hsuf, hmem⟩ := processIcons_trace rem (y :: post) fs2 (log ++ l)
          ((tr ++ [Event.check (inPath x)]) ++ evs)
        refine ⟨tr ++ [Event.check (inPath x), Event.readF (inPath x),
          Event.callRemove (inPath x)], suf, ?_, ?_⟩
        · rw [hsuf, hevs]
          simp
        · intro ev hev
          rcases List.mem_append.mp hev with h1 | h2
          · exact Or.inl h1
          · refine Or.inr ?_
            have hxy_in : inPath x ≠ inPath y := (List.pairwise_cons.mp hdin).1 y (by simp)
            have hxy_out : inPath x ≠ outPath y := hd1 x (by simp) y (by simp)
            simp only [List.mem_cons, List.not_mem_nil, or_false] at h2
            rcases h2 with h3 | h3 | h3 <;> subst h3 <;>
              exact ⟨by simpa [evPath] using hxy_in, by simpa [evPath] using hxy_out⟩
      | error xx =>
        obtain ⟨l, evs, e⟩ := xx
        obtain ⟨hl, hevs⟩ := rb_err_inv hrb
        rw [processIcons_err_step log tr (y :: post) hexx hrb] at hw
        exfalso
        simp only [rrTrace] at hw
        rcases List.mem_append.mp hw with h1 | h2
        · rcases List.mem_append.mp h1 with h3 | h4
          · exact hnt h3
          · simp at h4
        · rcases hevs with h | h <;> rw [h] at h2 <;> simp at h2
    · have hexx' : pathExists fs (inPath x) = false := by simpa using hexx
      rw [processIcons_skip log tr (y :: post) hexx'] at hw
      exfalso
      obtain ⟨suf, hsuf, hmem⟩ := processIcons_trace rem (y :: post) fs
        (log ++ [notFoundLine (inPath x)])
        ((tr ++ [Event.check (inPath x)]) ++ [Event.notice (inPath x)])
      rw [hsuf] at hw
      rcases List.mem_append.mp hw with h1 | h2
      · rcases List.mem_append.mp h1 with h3 | h4
        · rcases List.mem_append.mp h3 with h5 | h6
          · exact hnt h5
          · simp at h6
        · simp at h4
      · obtain ⟨b, hb, hp⟩ := hmem _ h2
        simp only [evPath] at hp
        rcases hp with hp | hp
        · exact hd1 b (List.mem_cons_of_mem x hb) x (by simp) hp.symm
        · exact (List.pairwise_cons.mp hd2).1 b hb hp
  | cons a pre' ih =>
    intro fs log tr hd1 hd2 hdin hw hnt
    simp only [List.cons_append] at hd1 hd2 hdin hw ⊢
    have hd1' : ∀ u ∈ pre' ++ x :: y :: post, ∀ v ∈ pre' ++ x :: y :: post,
        inPath u ≠ outPath v :=
      fun u hu v hv => hd1 u (List.mem_cons_of_mem a hu) v (List.mem_cons_of_mem a hv)
    have hd2' := (List.pairwise_cons.mp hd2).2
    have hdin' := (List.pairwise_cons.mp hdin).2
    have hd2h := (List.pairwise_cons.mp hd2).1
    have hdinh := (List.pairwise_cons.mp hdin).1
    have hymem : y ∈ pre' ++ x :: y :: post := by simp
    have hxmem : x ∈ pre' ++ x :: y :: post := by simp
    have hain : inPath a ≠ inPath y := hdinh y hymem
    have haout : inPath a ≠ outPath y := hd1 a (by simp) y (List.mem_cons_of_mem a hymem)
    have hoout : outPath a ≠ outPath y := hd2h y hymem
    have hoin : outPath a ≠ inPath y :=
      (hd1 y (List.mem_cons_of_mem a hymem) a (by simp)).symm
    by_cases hexa : pathExists fs (inPath a) = true
    · cases hrb : remove_background rem fs (inPath a) (outPath a) with
      | ok r =>
        obtain ⟨fs2, l, evs⟩ := r
        obtain ⟨bs, o, hr, ho, hnd2, hq⟩ := rb_ok_inv hrb
        have hevs : evs = [Event.readF (inPath a), Event.callRemove (inPath a),
            Event.writeF (outPath a)] := by
          simpa using congrArg (fun z => z.2.2) hq
        rw [processIcons_ok_step log tr (pre' ++ x :: y :: post) hexa hrb] at hw ⊢
        have hnt' : Event.writeF (outPath x) ∉ (tr ++ [Event.check (inPath a)]) ++ evs := by
          rw [hevs]
          intro hc
          rcases List.mem_append.mp hc with h1 | h2
          · rcases List.mem_append.mp h1 with h3 | h4
            · exact hnt h3
            · simp at h4
          · simp only [List.mem_cons, List.not_mem_nil, or_false] at h2
            rcases h2 with h3 | h3 | h3
            · exact Event.noConfusion h3
            · exact Event.noConfusion h3
            · have hxa : outPath x = outPath a := by simpa using h3
              exact hd2h x hxmem hxa.symm
        obtain ⟨t1, t2, heq, hcond⟩ := ih fs2 (log ++ l)
          ((tr ++ [Event.check (inPath a)]) ++ evs) hd1' hd2' hdin' hw hnt'
        refine ⟨t1, t2, heq, ?_⟩
        intro ev hev
        rcases hcond ev hev with h1 | h2
        · rw [hevs] at h1
          rcases List.mem_append.mp h1 with h3 | h4
          · rcases List.mem_append.mp h3 with h5 | h6
            · exact Or.inl h5
            · refine Or.inr ?_
              simp only [List.mem_singleton] at h6
              subst h6
              exact ⟨by simpa [evPath] using hain, by simpa [evPath] using haout⟩
          · refine Or.inr ?_
            simp only [List.mem_cons, List.not_mem_nil, or_false] at h4
            rcases h4 with h5 | h5 | h5 <;> subst h5
            · exact ⟨by simpa [evPath] using hain, by simpa [evPath] using haout⟩
            · exact ⟨by simpa [evPath] using hain, by simpa [evPath] using haout⟩
            · exact ⟨by simpa [evPath] using hoin, by simpa [evPath] using hoout⟩
        · exact Or.inr h2
      | error xx =>
        obtain ⟨l, evs, e⟩ := xx
        obtain ⟨hl, hevs⟩ := rb_err_inv hrb
        rw [processIcons_err_step log tr (pre' ++ x :: y :: post) hexa hrb] at hw
        exfalso
        simp only [rrTrace] at hw
        rcases List.mem_append.mp hw with h1 | h2
        · rcases List.mem_append.mp h1 with h3 | h4
          · exact hnt h3
          · simp at h4
        · rcases hevs with h | h <;> rw [h] at h2 <;> simp at h2
    · have hexa' : pathExists fs (inPath a) = false := by simpa using hexa
      rw [processIcons_skip log tr (pre' ++ x :: y :: post) hexa'] at hw ⊢
      have hnt' : Event.writeF (outPath x) ∉
          (tr ++ [Event.check (inPath a)]) ++ [Event.notice (inPath a)] := by
        intro hc
        rcases List.mem_append.mp hc with h1 | h2
        · rcases List.mem_append.mp h1 with h3 | h4
          · exact hnt h3
          · simp at h4
        · simp at h2
      obtain ⟨t1, t2, heq, hcond⟩ := ih fs (log ++ [notFoundLine (inPath a)])
        ((tr ++ [Event.check (inPath a)]) ++ [Event.notice (inPath a)]) hd1' hd2' hdin' hw hnt'
      refine ⟨t1, t2, heq, ?_⟩
      intro ev hev
      rcases hcond ev hev with h1 | h2
      · rcases List.mem_append.mp h1 with h3 | h4
        · rcases List.mem_append.mp h3 with h5 | h6
          · exact Or.inl h5
          · refine Or.inr ?_
            simp only [List.mem_singleton] at h6
            subst h6
            exact ⟨by simpa [evPath] using hain, by simpa [evPath] using haout⟩
        · refine Or.inr ?_
          simp only [List.mem_singleton] at h4
          subst h4
          exact ⟨by simpa [evPath] using hain, by simpa [evPath] using haout⟩
      · exact Or.inr h2

/-! ### The claims -/

/-- C1: for every filename in the configured list whose input path exists,
after a run of `main` that raises no error, the output directory holds a
file of the same leaf name whose contents are exactly the byte sequence
the external background-removal capability returns on the input file's
bytes, written over whatever entry was previously at that path. -/
theorem claim_C1 (rem : Bytes → Except String Bytes) (fs fs1 : FS)
    (log1 : List String) (tr1 : List Event) (icon : String)
    (hrun : main rem fs = RunResult.ok fs1 log1 tr1)
    (hmem : icon ∈ icons) (hex : pathExists fs (inPath icon) = true) :
    ∃ bs o, readFile fs (inPath icon) = Except.ok bs ∧ rem bs = Except.ok o ∧
      lookupFS fs1 (outPath icon) = some (Entry.file o) := by
  obtain ⟨fsm, log0, hmk, hpi, hlog⟩ := main_ok_inv hrun
  obtain ⟨hni1, hni2, _, _⟩ := icons_paths_not_base icon hmem
  have hlk : lookupFS fsm (inPath icon) = lookupFS fs (inPath icon) := by
    have h := makedirs_frame fs (inPath icon) hni1 hni2
    rw [hmk] at h
    exact h
  have hexm : pathExists fsm (inPath icon) = true := by
    rw [pathExists_congr hlk]; exact hex
  obtain ⟨bs, o, hr, ho, hout⟩ := processIcons_ok_output rem icons icon fsm banner [] fs1
    log0 tr1 icons_in_ne_out icons_out_pairwise hpi hmem hexm
  refine ⟨bs, o, ?_, ho, hout⟩
  rw [← readFile_congr hlk]
  exact hr

theorem claim_C1_witness :
    ∃ bs o, readFile fsSmall (inPath "set1_silent.png") = Except.ok bs ∧
      remCons bs = Except.ok o ∧
      lookupFS (rrFS (main remCons fsSmall)) (outPath "set1_silent.png") =
        some (Entry.file o) :=
  claim_C1 remCons fsSmall (rrFS (main remCons fsSmall)) (rrLog (main remCons fsSmall))
    (rrTrace (main remCons fsSmall)) "set1_silent.png" (by decide) (by decide) (by decide)

/-- C7: for every Job constructed during a run (one per configured icon),
the leaf filename of the output path equals the leaf filename of the
input path, both paths being the respective base directory joined with
the same list element. -/
theorem claim_C7 (icon : String) (hmem : icon ∈ icons) :
    leafName (outPath icon) = leafName (inPath icon) ∧
      outPath icon = pathJoin output_dir icon ∧ inPath icon = pathJoin input_dir icon := by
  refine ⟨?_, rfl, rfl⟩
  fin_cases hmem <;> decide

theorem claim_C7_witness :
    leafName (outPath "set1_silent.png") = leafName (inPath "set1_silent.png") ∧
      outPath "set1_silent.png" = pathJoin output_dir "set1_silent.png" ∧
      inPath "set1_silent.png" = pathJoin input_dir "set1_silent.png" :=
  claim_C7 "set1_silent.png" (by decide)

/-- C10: the configuration is fixed in source: the input directory is
`"public"`, the output directory is `"public/transparent"`, which is the
subdirectory `"transparent"` of the input directory, and the job list is
exactly the three icon filenames in their source order. -/
theorem claim_C10 :
    input_dir = "public" ∧ output_dir = "public/transparent" ∧
      output_dir = pathJoin input_dir "transparent" ∧
      icons = ["set1_silent.png", "set1_listening.png", "set1_speaking.png"] :=
  ⟨rfl, rfl, by decide, rfl⟩

/-- C3: for every filename in the configured list whose input path does not
exist, a "file not found" skip notice is emitted, no output file is created
for that filename, and the run continues and still completes: under the
implicit premise of the claim that nothing else fails — the external
capability succeeds on every input that does exist and no such input's
output path is currently a directory (so its write cannot raise) — `main`
finishes without an error. -/
theorem claim_C3 (rem : Bytes → Except String Bytes) (fs : FS)
    (hmk : (makedirs fs output_dir).2 = none)
    (hok : ∀ a ∈ icons, pathExists fs (inPath a) = true →
      ∃ bs o, readFile fs (inPath a) = Except.ok bs ∧ rem bs = Except.ok o ∧
        lookupFS fs (outPath a) ≠ some Entry.dir) :
    ∃ fs1 log1 tr1, main rem fs = RunResult.ok fs1 log1 tr1 ∧
      ∀ j ∈ icons, pathExists fs (inPath j) = false →
        notFoundLine (inPath j) ∈ log1 ∧
          lookupFS fs1 (outPath j) = lookupFS fs (outPath j) := by
  have hlkIn : ∀ a ∈ icons,
      lookupFS (makedirs fs output_dir).1 (inPath a) = lookupFS fs (inPath a) := by
    intro a ha
    obtain ⟨h1, h2, _, _⟩ := icons_paths_not_base a ha
    exact makedirs_frame fs (inPath a) h1 h2
  have hlkOut : ∀ a ∈ icons,
      lookupFS (makedirs fs output_dir).1 (outPath a) = lookupFS fs (outPath a) := by
    intro a ha
    obtain ⟨_, _, h3, h4⟩ := icons_paths_not_base a ha
    exact makedirs_frame fs (outPath a) h3 h4
  have hok' : ∀ a ∈ icons, pathExists (makedirs fs output_dir).1 (inPath a) = true →
      ∃ bs o, readFile (makedirs fs output_dir).1 (inPath a) = Except.ok bs ∧
        rem bs = Except.ok o ∧
        lookupFS (makedirs fs output_dir).1 (outPath a) ≠ some Entry.dir := by
    intro a ha hexx
    obtain ⟨bs, o, hr, ho, hnd⟩ := hok a ha
      (by rw [← pathExists_congr (hlkIn a ha)]; exact hexx)
    refine ⟨bs, o, by rw [readFile_congr (hlkIn a ha)]; exact hr, ho, ?_⟩
    rw [hlkOut a ha]
    exact hnd
  obtain ⟨fs1, log0, tr1, hrun, hskip⟩ := processIcons_completes rem icons
    (makedirs fs output_dir).1 banner [] icons_in_ne_out icons_out_pairwise hok'
  refine ⟨fs1, log0 ++ footer, tr1, ?_, ?_⟩
  · unfold main
    cases hmkp : makedirs fs output_dir with
    | mk fsm o =>
      cases o with
      | some e => rw [hmkp] at hmk; simp at hmk
      | none =>
        have hrun' : processIcons rem fsm banner [] icons = RunResult.ok fs1 log0 tr1 := by
          rw [hmkp] at hrun; exact hrun
        show runFrom rem fsm = RunResult.ok fs1 (log0 ++ footer) tr1
        unfold runFrom
        rw [hrun']
  · intro j hj hmiss
    have hm2 : pathExists (makedirs fs output_dir).1 (inPath j) = false := by
      rw [pathExists_congr (hlkIn j hj)]; exact hmiss
    obtain ⟨hline, hout⟩ := hskip j hj hm2
    exact ⟨List.mem_append_left _ hline, by rw [hout]; exact hlkOut j hj⟩

theorem claim_C3_witness :
    ∃ fs1 log1 tr1, main remCons fsTwo = RunResult.ok fs1 log1 tr1 ∧
      ∀ j ∈ icons, pathExists fsTwo (inPath j) = false →
        notFoundLine (inPath j) ∈ log1 ∧
          lookupFS fs1 (outPath j) = lookupFS fsTwo (outPath j) :=
  claim_C3 remCons fsTwo (by decide) (by
    intro a ha hex
    fin_cases ha
    · exact ⟨[1], [0, 1], rfl, rfl, by decide⟩
    · exact absurd hex (by decide)
    · exact ⟨[3], [0, 3], rfl, rfl, by decide⟩)

/-- C2: if the external capability raises an error while processing file `n`
of the list (all earlier existing files processing cleanly: they read and
transform fine and none of their output paths is a directory, so their
writes succeed), the failure propagates uncaught and the whole run aborts
with that error: every earlier file that existed has its output written,
and the output path of `n` and of every later file is left exactly as it
was. -/
theorem claim_C2 (rem : Bytes → Except String Bytes) (fs fsm : FS)
    (pre post : List String) (n : String) (bs : Bytes) (e : String)
    (hmk : makedirs fs output_dir = (fsm, none))
    (hsplit : icons = pre ++ n :: post)
    (hpre : ∀ a ∈ pre, pathExists fs (inPath a) = true →
      ∃ bs1 o, readFile fs (inPath a) = Except.ok bs1 ∧ rem bs1 = Except.ok o ∧
        lookupFS fs (outPath a) ≠ some Entry.dir)
    (hread : readFile fs (inPath n) = Except.ok bs)
    (hrem : rem bs = Except.error e) :
    ∃ fs_e log_e tr_e, main rem fs = RunResult.err fs_e log_e tr_e e ∧
      (∀ a ∈ pre, pathExists fs (inPath a) = true →
        ∃ bs1 o, readFile fs (inPath a) = Except.ok bs1 ∧ rem bs1 = Except.ok o ∧
          lookupFS fs_e (outPath a) = some (Entry.file o)) ∧
      (∀ m ∈ n :: post, lookupFS fs_e (outPath m) = lookupFS fs (outPath m)) := by
  have hpremem : ∀ a ∈ pre, a ∈ icons := by
    intro a ha; rw [hsplit]; exact List.mem_append_left _ ha
  have hnmem : ∀ m ∈ n :: post, m ∈ icons := by
    intro m hm; rw [hsplit]; exact List.mem_append_right _ hm
  have hlk : ∀ a ∈ icons, lookupFS fsm (inPath a) = lookupFS fs (inPath a) := by
    intro a ha
    obtain ⟨h1, h2, _, _⟩ := icons_paths_not_base a ha
    have h := makedirs_frame fs (inPath a) h1 h2
    rw [hmk] at h
    exact h
  have hlkOut : ∀ a ∈ icons, lookupFS fsm (outPath a) = lookupFS fs (outPath a) := by
    intro a ha
    obtain ⟨_, _, h3, h4⟩ := icons_paths_not_base a ha
    have h := makedirs_frame fs (outPath a) h3 h4
    rw [hmk] at h
    exact h
  have hd1 : ∀ a ∈ pre ++ n :: post, ∀ b ∈ pre ++ n :: post, inPath a ≠ outPath b :=
    hsplit ▸ icons_in_ne_out
  have hd2 : (pre ++ n :: post).Pairwise fun a b => outPath a ≠ outPath b :=
    hsplit ▸ icons_out_pairwise
  have hpreM : ∀ a ∈ pre, pathExists fsm (inPath a) = true →
      ∃ bs1 o, readFile fsm (inPath a) = Except.ok bs1 ∧ rem bs1 = Except.ok o ∧
        lookupFS fsm (outPath a) ≠ some Entry.dir := by
    intro a ha hexx
    obtain ⟨bs1, o, hr, ho, hnd⟩ := hpre a ha
      (by rw [← pathExists_congr (hlk a (hpremem a ha))]; exact hexx)
    refine ⟨bs1, o, by rw [readFile_congr (hlk a (hpremem a ha))]; exact hr, ho, ?_⟩
    rw [hlkOut a (hpremem a ha)]
    exact hnd
  have hreadM : readFile fsm (inPath n) = Except.ok bs := by
    rw [readFile_congr (hlk n (hnmem n (by simp)))]
    exact hread
  have hexn : pathExists fsm (inPath n) = true := pathExists_of_readFile_ok hreadM
  have hfail : remove_background rem fsm (inPath n) (outPath n) =
      Except.error ([procLine (inPath n)],
        [Event.readF (inPath n), Event.callRemove (inPath n)], e) :=
    rb_rem_err hreadM hrem
  obtain ⟨fs_e, log_e, tr_e, hrunE, hpreOut, hunch, _⟩ :=
    processIcons_abort rem n post [procLine (inPath n)]
      [Event.readF (inPath n), Event.callRemove (inPath n)] e pre fsm banner []
      hd1 hd2 hpreM hexn hfail
  refine ⟨fs_e, log_e, tr_e, ?_, ?_, ?_⟩
  · have hmain : main rem fs = runFrom rem fsm := by unfold main; rw [hmk]
    rw [hmain]
    unfold runFrom
    rw [hsplit, hrunE]
  · intro a ha hexx
    have hexm : pathExists fsm (inPath a) = true := by
      rw [pathExists_congr (hlk a (hpremem a ha))]; exact hexx
    obtain ⟨bs1, o, hr, ho, hout⟩ := hpreOut a ha hexm
    refine ⟨bs1, o, ?_, ho, hout⟩
    rw [← readFile_congr (hlk a (hpremem a ha))]
    exact hr
  · intro m hm
    rw [hunch m hm]
    exact hlkOut m (hnmem m hm)

theorem claim_C2_witness :
    ∃ fs_e log_e tr_e, main remFail3 fsTwo = RunResult.err fs_e log_e tr_e "boom" ∧
      (∀ a ∈ ["set1_silent.png", "set1_listening.png"],
        pathExists fsTwo (inPath a) = true →
        ∃ bs1 o, readFile fsTwo (inPath a) = Except.ok bs1 ∧ remFail3 bs1 = Except.ok o ∧
          lookupFS fs_e (outPath a) = some (Entry.file o)) ∧
      (∀ m ∈ ["set1_speaking.png"],
        lookupFS fs_e (outPath m) = lookupFS fsTwo (outPath m)) :=
  claim_C2 remFail3 fsTwo (makedirs fsTwo output_dir).1
    ["set1_silent.png", "set1_listening.png"] [] "set1_speaking.png" [3] "boom"
    (by decide) (by decide)
    (by
      intro a ha hex
      fin_cases ha
      · exact ⟨[1], [0, 1], rfl, rfl, by decide⟩
      · exact absurd hex (by decide))
    rfl rfl

/-- C9: the skip decision tests only path existence, not readability: if the
input path of file `n` exists but is a directory (all earlier existing files
transforming fine), the run emits no skip notice for it and instead aborts
with the uncaught error raised by the read step, producing no output for
`n` or any later file. -/
theorem claim_C9 (rem : Bytes → Except String Bytes) (fs fsm : FS)
    (pre post : List String) (n : String)
    (hmk : makedirs fs output_dir = (fsm, none))
    (hsplit : icons = pre ++ n :: post)
    (hpre : ∀ a ∈ pre, pathExists fs (inPath a) = true →
      ∃ bs o, readFile fs (inPath a) = Except.ok bs ∧ rem bs = Except.ok o)
    (hdir : lookupFS fs (inPath n) = some Entry.dir) :
    ∃ fs_e log_e tr_e,
      main rem fs = RunResult.err fs_e log_e tr_e "IsADirectoryError" ∧
      Event.notice (inPath n) ∉ tr_e ∧
      (∀ m ∈ n :: post, lookupFS fs_e (outPath m) = lookupFS fs (outPath m)) := by
  have hpremem : ∀ a ∈ pre, a ∈ icons := by
    intro a ha; rw [hsplit]; exact List.mem_append_left _ ha
  have hnmem : ∀ m ∈ n :: post, m ∈ icons := by
    intro m hm; rw [hsplit]; exact List.mem_append_right _ hm
  have hlk : ∀ a ∈ icons, lookupFS fsm (inPath a) = lookupFS fs (inPath a) := by
    intro a ha
    obtain ⟨h1, h2, _, _⟩ := icons_paths_not_base a ha
    have h := makedirs_frame fs (inPath a) h1 h2
    rw [hmk] at h
    exact h
  have hlkOut : ∀ a ∈ icons, lookupFS fsm (outPath a) = lookupFS fs (outPath a) := by
    intro a ha
    obtain ⟨_, _, h3, h4⟩ := icons_paths_not_base a ha
    have h := makedirs_frame fs (outPath a) h3 h4
    rw [hmk] at h
    exact h
  have hd1 : ∀ a ∈ pre ++ n :: post, ∀ b ∈ pre ++ n :: post, inPath a ≠ outPath b :=
    hsplit ▸ icons_in_ne_out
  have hd2 : (pre ++ n :: post).Pairwise fun a b => outPath a ≠ outPath b :=
    hsplit ▸ icons_out_pairwise
  have hpreM : ∀ a ∈ pre, pathExists fsm (inPath a) = true →
      ∃ bs o, readFile fsm (inPath a) = Except.ok bs ∧ rem bs = Except.ok o := by
    intro a ha hexx
    obtain ⟨bs, o, hr, ho⟩ := hpre a ha
      (by rw [← pathExists_congr (hlk a (hpremem a ha))]; exact hexx)
    exact ⟨bs, o, by rw [readFile_congr (hlk a (hpremem a ha))]; exact hr, ho⟩
  have hdirM : lookupFS fsm (inPath n) = some Entry.dir := by
    rw [hlk n (hnmem n (by simp))]
    exact hdir
  obtain ⟨fs_e, log_e, tr_e, hrunE, hunch, hnotice⟩ :=
    processIcons_abort_isdir rem n post pre fsm banner [] hd1 hd2 hpreM hdirM
  refine ⟨fs_e, log_e, tr_e, ?_, ?_, ?_⟩
  · have hmain : main rem fs = runFrom rem fsm := by unfold main; rw [hmk]
    rw [hmain]
    unfold runFrom
    rw [hsplit, hrunE]
  · intro hc
    simpa using hnotice hc
  · intro m hm
    rw [hunch m hm]
    exact hlkOut m (hnmem m hm)

theorem claim_C9_witness :
    ∃ fs_e log_e tr_e,
      main remCons fsDirClash = RunResult.err fs_e log_e tr_e "IsADirectoryError" ∧
      Event.notice (inPath "set1_silent.png") ∉ tr_e ∧
      (∀ m ∈ ["set1_silent.png", "set1_listening.png", "set1_speaking.png"],
        lookupFS fs_e (outPath m) = lookupFS fsDirClash (outPath m)) :=
  claim_C9 remCons fsDirClash (makedirs fsDirClash output_dir).1 []
    ["set1_listening.png", "set1_speaking.png"] "set1_silent.png"
    (by decide) (by decide)
    (fun a ha => absurd ha (List.not_mem_nil a))
    (by decide)

/-- C5: running the batch twice with the same (deterministic) external
capability and the same inputs is idempotent: if the first run succeeds,
the second run succeeds with the same log and trace and overwrites each
output with the same bytes, leaving every path's entry observably
unchanged. -/
theorem claim_C5 (rem : Bytes → Except String Bytes) (fs fs1 : FS)
    (log1 : List String) (tr1 : List Event)
    (h : main rem fs = RunResult.ok fs1 log1 tr1) :
    ∃ fs2, main rem fs1 = RunResult.ok fs2 log1 tr1 ∧
      ∀ q, lookupFS fs2 q = lookupFS fs1 q := by
  obtain ⟨fsm, log0, hmk, hpi, hlog⟩ := main_ok_inv h
  have hdirs := makedirs_ok_dirs fs (by rw [hmk])
  rw [hmk] at hdirs
  obtain ⟨hpt, hpub⟩ := hdirs
  have hQpub : ∀ b ∈ icons, "public" ≠ outPath b := by decide
  have hQpt : ∀ b ∈ icons, "public/transparent" ≠ outPath b := by decide
  have hfr1 := processIcons_frame rem icons fsm banner [] "public" hQpub
  have hfr2 := processIcons_frame rem icons fsm banner [] "public/transparent" hQpt
  rw [hpi] at hfr1 hfr2
  simp only [rrFS] at hfr1 hfr2
  have hpub1 : pathExists fs1 "public" = true := by
    rw [pathExists, hfr1]
    exact hpub
  have hpt1 : lookupFS fs1 "public/transparent" = some Entry.dir := by
    rw [hfr2]
    exact hpt
  have hmk2 : makedirs fs1 output_dir = (fs1, none) := makedirs_idem fs1 hpub1 hpt1
  have hin : ∀ a ∈ icons, lookupFS fs1 (inPath a) = lookupFS fsm (inPath a) := by
    intro a ha
    have hq : ∀ b ∈ icons, inPath a ≠ outPath b := fun b hb => icons_in_ne_out a ha b hb
    have hfr := processIcons_frame rem icons fsm banner [] (inPath a) hq
    rw [hpi] at hfr
    simpa [rrFS] using hfr
  have hgnd : ∀ a ∈ icons, pathExists fsm (inPath a) = true →
      lookupFS fs1 (outPath a) ≠ some Entry.dir := by
    intro a ha hexx
    obtain ⟨bs, o, hr, ho, hout⟩ := processIcons_ok_output rem icons a fsm banner [] fs1
      log0 tr1 icons_in_ne_out icons_out_pairwise hpi ha hexx
    rw [hout]
    simp
  obtain ⟨g1, hgrun, hq⟩ := processIcons_bisim rem icons fsm fs1 banner [] fs1 log0 tr1
    icons_in_ne_out icons_out_pairwise hin hgnd hpi
  refine ⟨g1, ?_, ?_⟩
  · have hmain : main rem fs1 = runFrom rem fs1 := by unfold main; rw [hmk2]
    rw [hmain]
    unfold runFrom
    rw [hgrun, hlog]
  · intro q
    rcases hq q with hleft | ⟨e1, e2⟩
    · exact hleft
    · exact e1

theorem claim_C5_witness :
    ∃ fs2, main remCons (rrFS (main remCons fsSmall)) =
        RunResult.ok fs2 (rrLog (main remCons fsSmall)) (rrTrace (main remCons fsSmall)) ∧
      ∀ q, lookupFS fs2 q = lookupFS (rrFS (main remCons fsSmall)) q :=
  claim_C5 remCons fsSmall (rrFS (main remCons fsSmall)) (rrLog (main remCons fsSmall))
    (rrTrace (main remCons fsSmall)) (by decide)

/-- C6: output-directory creation is idempotent: when the output directory
already exists (as a directory) at the start of a run, the `makedirs` step
succeeds silently and `main` proceeds into the processing phase rather than
erroring because of it. -/
theorem claim_C6 (rem : Bytes → Except String Bytes) (fs : FS)
    (h : lookupFS fs output_dir = some Entry.dir) :
    (makedirs fs output_dir).2 = none ∧
      main rem fs = runFrom rem (makedirs fs output_dir).1 := by
  have h' : lookupFS fs "public/transparent" = some Entry.dir := h
  have hspec := makedirs_spec fs
  by_cases hp : pathExists fs "public" = true
  · rw [if_pos hp, h'] at hspec
    refine ⟨by rw [hspec], ?_⟩
    unfold main
    rw [hspec]
  · rw [if_neg hp, h'] at hspec
    refine ⟨by rw [hspec], ?_⟩
    unfold main
    rw [hspec]

theorem claim_C6_witness :
    (makedirs fsWithOut output_dir).2 = none ∧
      main remCons fsWithOut = runFrom remCons (makedirs fsWithOut output_dir).1 :=
  claim_C6 remCons fsWithOut (by decide)

/-- C8: a run never modifies or deletes any input file: every path other
than the two directories `makedirs` may create ("public" and
"public/transparent") and the output paths of the configured icons is left
with exactly the entry it had before the run — in particular the bytes of
every input file are unchanged. -/
theorem claim_C8 (rem : Bytes → Except String Bytes) (fs : FS) (q : Path)
    (h1 : q ≠ "public") (h2 : q ≠ "public/transparent")
    (h3 : ∀ a ∈ icons, q ≠ outPath a) :
    lookupFS (rrFS (main rem fs)) q = lookupFS fs q ∧
      ∀ a ∈ icons, lookupFS (rrFS (main rem fs)) (inPath a) = lookupFS fs (inPath a) := by
  have key : ∀ p, p ≠ "public" → p ≠ "public/transparent" →
      (∀ a ∈ icons, p ≠ outPath a) →
      lookupFS (rrFS (main rem fs)) p = lookupFS fs p := by
    intro p hp1 hp2 hp3
    unfold main
    cases hmk : makedirs fs output_dir with
    | mk fsm o =>
      have hfrm : lookupFS fsm p = lookupFS fs p := by
        have hh := makedirs_frame fs p hp1 hp2
        rw [hmk] at hh
        exact hh
      cases o with
      | some e =>
        show lookupFS fsm p = lookupFS fs p
        exact hfrm
      | none =>
        show lookupFS (rrFS (runFrom rem fsm)) p = lookupFS fs p
        rw [runFrom_rrFS, processIcons_frame rem icons fsm banner [] p hp3]
        exact hfrm
  refine ⟨key q h1 h2 h3, ?_⟩
  intro a ha
  obtain ⟨k1, k2, _, _⟩ := icons_paths_not_base a ha
  exact key (inPath a) k1 k2 (fun b hb => icons_in_ne_out a ha b hb)

theorem claim_C8_witness :
    lookupFS (rrFS (main remCons fsSmall)) "unrelated.txt" =
        lookupFS fsSmall "unrelated.txt" ∧
      ∀ a ∈ icons, lookupFS (rrFS (main remCons fsSmall)) (inPath a) =
        lookupFS fsSmall (inPath a) :=
  claim_C8 remCons fsSmall "unrelated.txt" (by decide) (by decide) (by decide)

/-- C4: files are processed strictly in list order: for any adjacent pair of
configured icons `x` (position N) and `y` (position N+1), if the run wrote
`x`'s output at all, the run's event trace splits at that write and no event
at or before it concerns `y` — so `y`'s existence check, read, transform
call and write all happen strictly after `x`'s output is fully written. -/
theorem claim_C4 (rem : Bytes → Except String Bytes) (fs : FS)
    (pre : List String) (x y : String) (post : List String)
    (hsplit : icons = pre ++ x :: y :: post)
    (hw : Event.writeF (outPath x) ∈ rrTrace (main rem fs)) :
    ∃ t1 t2, rrTrace (main rem fs) = t1 ++ Event.writeF (outPath x) :: t2 ∧
      ∀ ev ∈ t1 ++ [Event.writeF (outPath x)],
        evPath ev ≠ inPath y ∧ evPath ev ≠ outPath y := by
  rcases hmk : makedirs fs output_dir with ⟨fsm, o⟩
  have hmain : main rem fs = (match ((fsm, o) : FS × Option String) with
      | (f, some e) => RunResult.err f [] [] e
      | (f, none) => runFrom rem f) := by
    unfold main
    rw [hmk]
  cases o with
  | some e =>
    rw [hmain] at hw
    simp [rrTrace] at hw
  | none =>
    have hmain2 : main rem fs = runFrom rem fsm := hmain
    rw [hmain2] at hw ⊢
    rw [runFrom_rrTrace] at hw ⊢
    rw [hsplit] at hw ⊢
    have hd1 := hsplit ▸ icons_in_ne_out
    have hd2 := hsplit ▸ icons_out_pairwise
    have hdin := hsplit ▸ icons_in_pairwise
    obtain ⟨t1, t2, heq, hcond⟩ := processIcons_write_order rem x y post pre fsm banner []
      hd1 hd2 hdin hw (List.not_mem_nil _)
    refine ⟨t1, t2, heq, ?_⟩
    have hsub1 : List.Sublist (x :: y :: post) (pre ++ x :: y :: post) :=
      List.sublist_append_right pre (x :: y :: post)
    have hp2 := List.Pairwise.sublist hsub1 hd2
    have hxy_out : outPath x ≠ outPath y := (List.pairwise_cons.mp hp2).1 y (by simp)
    have hxy_in : outPath x ≠ inPath y :=
      (hd1 y (by simp) x (by simp)).symm
    intro ev hev
    rcases List.mem_append.mp hev with h1 | h2
    · rcases hcond ev h1 with h3 | h3
      · exact absurd h3 (List.not_mem_nil ev)
      · exact h3
    · simp only [List.mem_singleton] at h2
      subst h2
      exact ⟨by simpa [evPath] using hxy_in, by simpa [evPath] using hxy_out⟩

theorem claim_C4_witness :
    ∃ t1 t2, rrTrace (main remCons fsSmall) =
        t1 ++ Event.writeF (outPath "set1_silent.png") :: t2 ∧
      ∀ ev ∈ t1 ++ [Event.writeF (outPath "set1_silent.png")],
        evPath ev ≠ inPath "set1_listening.png" ∧
        evPath ev ≠ outPath "set1_listening.png" :=
  claim_C4 remCons fsSmall [] "set1_silent.png" "set1_listening.png"
    ["set1_speaking.png"] rfl (by decide)

end KeaBatch
